import Mathlib

/-!
# Verification of the Mafia-Social-Media-Tracking acquisition engine

This file gives a shallow embedding, in Lean 4, of the core acquisition and
thread-aggregation logic of the repository:

* `src/services/post_collector.py` — Twitter client fallback orchestration,
* `src/clients/nitter_client.py` — mirror-instance rate-limit cooldown,
* `src/clients/x_auth_client.py` — authenticated timeline fetch loop,
* `src/clients/x_endpoints.py` — defensive timeline response parsing,
* `src/clients/x_auth_flow.py` — interactive login state machine,
* `src/clients/ai_client.py` — thread detection, merging and thread ids.

Machine-level details are modelled as follows: Python's `hashlib.md5` is
implemented bit-faithfully over `Nat` (mod `2^32`), Python `datetime`
values are represented as microsecond counts (`Int`), Python exceptions are
`Except String`, and Python dicts with optional keys become structures with
`Option` fields.  Each claim about the program is stated and settled below
the definitions.
-/

namespace MD5

/-- 32-bit modulus used throughout the md5 embedding. -/
def M32 : Nat := 4294967296

/-- Addition modulo `2^32` (Python ints truncated by `& 0xFFFFFFFF`). -/
def add32 (a b : Nat) : Nat := (a + b) % M32

/-- Bitwise NOT on a 32-bit word. -/
def not32 (a : Nat) : Nat := Nat.xor a 4294967295

/-- Left rotation of a 32-bit word by `c` bits (`0 < c < 32` in md5). -/
def rotl32 (x c : Nat) : Nat :=
  (Nat.lor (Nat.shiftLeft x c) (Nat.shiftRight x (32 - c))) % M32

/-- The md5 sine-derived constant table `K` (RFC 1321). -/
def kTable : List Nat :=
  [3614090360, 3905402710, 606105819, 3250441966, 4118548399, 1200080426, 2821735955, 4249261313,
   1770035416, 2336552879, 4294925233, 2304563134, 1804603682, 4254626195, 2792965006, 1236535329,
   4129170786, 3225465664, 643717713, 3921069994, 3593408605, 38016083, 3634488961, 3889429448,
   568446438, 3275163606, 4107603335, 1163531501, 2850285829, 4243563512, 1735328473, 2368359562,
   4294588738, 2272392833, 1839030562, 4259657740, 2763975236, 1272893353, 4139469664, 3200236656,
   681279174, 3936430074, 3572445317, 76029189, 3654602809, 3873151461, 530742520, 3299628645,
   4096336452, 1126891415, 2878612391, 4237533241, 1700485571, 2399980690, 4293915773, 2240044497,
   1873313359, 4264355552, 2734768916, 1309151649, 4149444226, 3174756917, 718787259, 3951481745]

/-- The md5 per-round shift table `s` (RFC 1321). -/
def sTable : List Nat :=
  [7, 12, 17, 22, 7, 12, 17, 22, 7, 12, 17, 22, 7, 12, 17, 22,
   5, 9, 14, 20, 5, 9, 14, 20, 5, 9, 14, 20, 5, 9, 14, 20,
   4, 11, 16, 23, 4, 11, 16, 23, 4, 11, 16, 23, 4, 11, 16, 23,
   6, 10, 15, 21, 6, 10, 15, 21, 6, 10, 15, 21, 6, 10, 15, 21]

/-- One md5 round function application, choosing `F`/`G`/`H`/`I` and the
message-word index from the round number `i`. -/
def roundMix (m : Nat → Nat) (i : Nat) (st : Nat × Nat × Nat × Nat) :
    Nat × Nat × Nat × Nat :=
  let a := st.1; let b := st.2.1; let c := st.2.2.1; let d := st.2.2.2
  let fg : Nat × Nat :=
    if i < 16 then (Nat.lor (Nat.land b c) (Nat.land (not32 b) d), i)
    else if i < 32 then (Nat.lor (Nat.land d b) (Nat.land (not32 d) c), (5 * i + 1) % 16)
    else if i < 48 then (Nat.xor b (Nat.xor c d), (3 * i + 5) % 16)
    else (Nat.xor c (Nat.lor b (not32 d)), (7 * i) % 16)
  let tmp := add32 (add32 (add32 a fg.1) (kTable.getD i 0)) (m fg.2)
  (d, add32 b (rotl32 tmp (sTable.getD i 0)), b, c)

/-- Run md5 rounds `0, 1, …, n-1` on a state. -/
def runRounds (m : Nat → Nat) : Nat → Nat × Nat × Nat × Nat → Nat × Nat × Nat × Nat
  | 0, st => st
  | n + 1, st => roundMix m n (runRounds m n st)

/-- Read a little-endian 32-bit word from 4 bytes of the message. -/
def word32 (bytes : List Nat) (off : Nat) : Nat :=
  bytes.getD off 0 + 256 * bytes.getD (off + 1) 0 +
    65536 * bytes.getD (off + 2) 0 + 16777216 * bytes.getD (off + 3) 0

/-- Process one 64-byte chunk, updating the md5 state. -/
def processChunk (chunk : List Nat) (st : Nat × Nat × Nat × Nat) :
    Nat × Nat × Nat × Nat :=
  let m : Nat → Nat := fun g => word32 chunk (4 * g)
  let r := runRounds m 64 st
  (add32 st.1 r.1, add32 st.2.1 r.2.1, add32 st.2.2.1 r.2.2.1, add32 st.2.2.2 r.2.2.2)

/-- Split a byte list into 64-byte chunks (fuel-structured so that the
kernel can evaluate it; `fuel = bytes.length` always suffices). -/
def chunks64Go : Nat → List Nat → List (List Nat)
  | 0, _ => []
  | _ + 1, [] => []
  | fuel + 1, b :: rest => (b :: rest).take 64 :: chunks64Go fuel ((b :: rest).drop 64)

/-- Split a byte list into 64-byte chunks. -/
def chunks64 (bytes : List Nat) : List (List Nat) := chunks64Go bytes.length bytes

/-- md5 padding: a `0x80` byte, zeros to 56 mod 64, then the 8-byte
little-endian bit length of the original message. -/
def padBytes (msg : List Nat) : List Nat :=
  let padLen := (55 + 64 - msg.length % 64) % 64 + 1
  let bitLen := (8 * msg.length) % (M32 * M32)
  let lenBytes := (List.range 8).map fun i => bitLen / 256 ^ i % 256
  msg ++ (128 :: List.replicate (padLen - 1) 0) ++ lenBytes

/-- Hex digit characters for digest rendering. -/
def hexDigit (n : Nat) : Char :=
  if n < 10 then Char.ofNat (48 + n) else Char.ofNat (87 + n)

/-- Render one byte as two lowercase hex characters. -/
def byteHex (b : Nat) : List Char := [hexDigit (b / 16), hexDigit (b % 16)]

/-- Little-endian byte decomposition of a 32-bit word. -/
def wordBytes (w : Nat) : List Nat := [w % 256, w / 256 % 256, w / 65536 % 256, w / 16777216 % 256]

/-- md5 of a byte list, as a lowercase 32-character hex string. -/
def md5Bytes (msg : List Nat) : String :=
  let init : Nat × Nat × Nat × Nat := (1732584193, 4023233417, 2562383102, 271733878)
  let fin := (chunks64 (padBytes msg)).foldl (fun st ch => processChunk ch st) init
  let digest := wordBytes fin.1 ++ wordBytes fin.2.1 ++ wordBytes fin.2.2.1 ++ wordBytes fin.2.2.2
  String.mk (digest.flatMap byteHex)

/-- UTF-8 encoding of a single code point (Python `str.encode()`), as bytes. -/
def utf8Char (n : Nat) : List Nat :=
  if n < 128 then [n]
  else if n < 2048 then [192 + n / 64, 128 + n % 64]
  else if n < 65536 then [224 + n / 4096, 128 + n / 64 % 64, 128 + n % 64]
  else [240 + n / 262144, 128 + n / 4096 % 64, 128 + n / 64 % 64, 128 + n % 64]

/-- UTF-8 bytes of a string. -/
def utf8Bytes (s : String) : List Nat := s.data.flatMap fun c => utf8Char c.toNat

/-- `hashlib.md5(s.encode()).hexdigest()` of the source. -/
def md5Hex (s : String) : String := md5Bytes (utf8Bytes s)

end MD5

/-! ## Python `datetime` model

`src/clients/ai_client.py::_parse_post_time` parses post-time strings with
`datetime.strptime` against seven candidate formats.  We model a parsed
`datetime` as its calendar fields and compare datetimes through their
microsecond count from the Unix epoch (exact, so the float comparison
`total_seconds() > threshold` in the source is reproduced without error). -/

namespace PyTime

/-- A parsed naive `datetime` (year, month, day, hour, minute, second,
microsecond). -/
structure DateTime7 where
  year : Nat
  month : Nat
  day : Nat
  hour : Nat
  minute : Nat
  second : Nat
  usec : Nat
deriving Repr, DecidableEq

/-- Leap-year rule of the proleptic Gregorian calendar (Python `datetime`). -/
def isLeap (y : Nat) : Bool := y % 4 == 0 && (y % 100 != 0 || y % 400 == 0)

/-- Days in a month. -/
def daysInMonth (y m : Nat) : Nat :=
  if m == 2 then (if isLeap y then 29 else 28)
  else if m == 4 || m == 6 || m == 9 || m == 11 then 30
  else 31

/-- Day number of a civil date counted from 1970-01-01 (standard
era-based formula; valid for `1 ≤ y`). -/
def daysFromCivil (y m d : Nat) : Int :=
  let y' := if m ≤ 2 then y - 1 else y
  let mshift := if 3 ≤ m then m - 3 else m + 9
  let d0 := 365 * y' + y' / 4 - y' / 100 + y' / 400 + (153 * mshift + 2) / 5 + (d - 1)
  (d0 : Int) - 719468

/-- Microseconds from the Unix epoch of a naive datetime. -/
def toMicros (dt : DateTime7) : Int :=
  daysFromCivil dt.year dt.month dt.day * 86400000000 +
    (dt.hour * 3600000000 + dt.minute * 60000000 + dt.second * 1000000 + dt.usec : Nat)

/-- `datetime.min` (`0001-01-01 00:00:00`) in microseconds, used by
`merge_thread_content` as the sort key for unparseable times. -/
def datetimeMinMicros : Int := toMicros ⟨1, 1, 1, 0, 0, 0, 0⟩

/-- One `strptime` directive or format element.  `_strptime` compiles the
format into a regex: each run of whitespace in the format becomes `\s+`
(the `ws` token), every other literal character matches itself
case-insensitively (the pattern is compiled with `IGNORECASE`). -/
inductive FTok
  | lit (c : Char)
  | ws
  | year
  | month
  | day
  | hour
  | minute
  | second
  | frac
deriving Repr, DecidableEq

open FTok in
/-- Tokenisation of the seven format strings tried by `_parse_post_time`,
in the source's order.  The single space of the two `%Y-%m-%d %H:%M:%S`
variants is a whitespace run in the format, hence `\s+` in the compiled
regex (the `ws` token). -/
def formats : List (List FTok) :=
  let core := [year, lit '-', month, lit '-', day]
  let hms := [hour, lit ':', minute, lit ':', second]
  [ core ++ [lit 'T'] ++ hms ++ [lit '.', frac, lit 'Z'],
    core ++ [lit 'T'] ++ hms ++ [lit 'Z'],
    core ++ [lit 'T'] ++ hms ++ [lit '.', frac],
    core ++ [lit 'T'] ++ hms,
    core ++ [ws] ++ hms,
    core ++ [lit 'T'] ++ hms ++ [lit '+', lit '0', lit '0', lit ':', lit '0', lit '0'],
    core ++ [ws] ++ hms ++ [lit '.', frac] ]

/-- Maximal run of ASCII digits at the head of a character list. -/
def digitRun : List Char → List Char × List Char
  | [] => ([], [])
  | c :: cs =>
    if c.isDigit then
      let (ds, rest) := digitRun cs
      (c :: ds, rest)
    else ([], c :: cs)

/-- The characters Python's `re` class `\s` matches in a `str` pattern
(`Py_UNICODE_ISSPACE`). -/
def pyWs (c : Char) : Bool :=
  let n := c.toNat
  n == 0x20 || (0x9 ≤ n && n ≤ 0xd) || (0x1c ≤ n && n ≤ 0x1f) || n == 0x85 ||
  n == 0xa0 || n == 0x1680 || (0x2000 ≤ n && n ≤ 0x200a) || n == 0x2028 ||
  n == 0x2029 || n == 0x202f || n == 0x205f || n == 0x3000

/-- Maximal run of regex whitespace at the head of a character list. -/
def wsRun : List Char → List Char × List Char
  | [] => ([], [])
  | c :: cs =>
    if pyWs c then
      let (sp, rest) := wsRun cs
      (c :: sp, rest)
    else ([], c :: cs)

/-- Numeric value of a digit list. -/
def natOfDigits (ds : List Char) : Nat := ds.foldl (fun n c => 10 * n + (c.toNat - 48)) 0

/-- Accept a digit run for one numeric directive, mirroring the regexes
`_strptime` compiles for `%Y %m %d %H %M %S %f` (run length and value
ranges; a run the regex cannot consume entirely fails the format because
every directive in the source's formats is followed by a non-digit literal
or the end of the string). -/
def dirOk (t : FTok) (len v : Nat) : Bool :=
  match t with
  | .year => len == 4
  | .month => (len == 1 || len == 2) && 1 ≤ v && v ≤ 12
  | .day => (len == 1 || len == 2) && 1 ≤ v && v ≤ 31
  | .hour => (len == 1 || len == 2) && v ≤ 23
  | .minute => (len == 1 || len == 2) && v ≤ 59
  | .second => (len == 1 || len == 2) && v ≤ 61
  | .frac => 1 ≤ len && len ≤ 6
  | .lit _ => false
  | .ws => false

/-- Store a directive's value into the partially built datetime.  The
fraction directive scales to microseconds as `_strptime` does. -/
def setField (t : FTok) (len v : Nat) (dt : DateTime7) : DateTime7 :=
  match t with
  | .year => { dt with year := v }
  | .month => { dt with month := v }
  | .day => { dt with day := v }
  | .hour => { dt with hour := v }
  | .minute => { dt with minute := v }
  | .second => { dt with second := v }
  | .frac => { dt with usec := v * 10 ^ (6 - len) }
  | .lit _ => dt
  | .ws => dt

/-- Match one format against the whole character list.  A literal matches
its input character up to ASCII case (`_strptime` compiles the pattern
with `IGNORECASE`); a format-whitespace token consumes one or more regex
whitespace characters (`\s+`; maximal munch is faithful because the next
token is always a digit directive and no whitespace is a digit). -/
def matchFormat : List FTok → List Char → DateTime7 → Option DateTime7
  | [], [], dt => some dt
  | [], _ :: _, _ => none
  | .lit c :: ts, cs, dt =>
    match cs with
    | [] => none
    | c' :: cs' => if c.toLower == c'.toLower then matchFormat ts cs' dt else none
  | .ws :: ts, cs, dt =>
    let (sp, rest) := wsRun cs
    if sp.isEmpty then none else matchFormat ts rest dt
  | t :: ts, cs, dt =>
    let (ds, rest) := digitRun cs
    let v := natOfDigits ds
    if dirOk t ds.length v then matchFormat ts rest (setField t ds.length v dt)
    else none

/-- Validity checks done by the `datetime` constructor after a regex match
(`strptime` raises `ValueError` and `_parse_post_time` falls through to
the next format). -/
def ctorOk (dt : DateTime7) : Bool :=
  1 ≤ dt.year && dt.year ≤ 9999 && dt.day ≤ daysInMonth dt.year dt.month && dt.second ≤ 59

/-- Try one format: regex match then constructor validation. -/
def tryFormat (ts : List FTok) (s : String) : Option DateTime7 :=
  match matchFormat ts s.data ⟨1900, 1, 1, 0, 0, 0, 0⟩ with
  | some dt => if ctorOk dt then some dt else none
  | none => none

end PyTime

namespace AIClient

open PyTime

/-- `_parse_post_time` of `src/clients/ai_client.py`: the empty string is
rejected up front, then the seven formats are tried in order; any failure
yields `None`. -/
def parsePostTime (timeStr : String) : Option DateTime7 :=
  if timeStr = "" then none
  else
    let rec firstHit : List (List FTok) → Option DateTime7
      | [] => none
      | f :: fs =>
        match tryFormat f timeStr with
        | some dt => some dt
        | none => firstHit fs
    firstHit formats

/-- Parsed post time in epoch microseconds, if parseable. -/
def postMicros (timeStr : String) : Option Int := (parsePostTime timeStr).map toMicros

end AIClient

/-! ## Canonical post dictionaries

Posts flow through `ai_client.py` as Python dicts.  The keys the
aggregation code reads or writes become fields; keys that a collector
always sets are plain, keys that may be absent are `Option` (with `none`
for "key missing", as `dict.get` defaults).  `thread_posts` is the
retained member list of a merged record (`[]` for "key missing": the code
only ever stores non-empty lists there). -/

structure Post where
  platform : String
  post_id : String
  author_username : String
  original_content : String
  post_time : String
  thread_id : Option String := none
  is_thread : Option Bool := none
  thread_count : Option Nat := none
  timeRange : Option (String × String) := none
  thread_posts : List Post
deriving Repr

instance : Inhabited Post := ⟨⟨"", "", "", "", "", none, none, none, none, []⟩⟩

namespace AIClient

open PyTime

/-- Sort key of `detect_and_group_threads`:
`(author_username, _parse_post_time(post_time))`. -/
def sortKey (p : Post) : String × Option Int := (p.author_username, postMicros p.post_time)

/-- Comparison on optional datetimes, with `none` ordered below `some`.
Python raises a `TypeError` when it must compare `None` with a
`datetime`; on the inputs where the source's sort completes (no author
with both kinds of key, see `hasMixedPair`) that case is never consulted,
so any total completion of the order is faithful there. -/
def timeKeyLE : Option Int → Option Int → Bool
  | none, _ => true
  | some _, none => false
  | some a, some b => a ≤ b

/-- The lexicographic key order used by Python's stable `sorted`. -/
def keyLE (p q : Post) : Prop :=
  (decide (p.author_username.data < q.author_username.data) ||
    (p.author_username == q.author_username &&
      timeKeyLE (postMicros p.post_time) (postMicros q.post_time))) = true

instance : DecidableRel keyLE := fun _ _ => instDecidableEqBool _ true

/-- Does the list hold two same-author posts of which exactly one has a
parseable time?  On such inputs Python's `sorted` raises `TypeError`
(comparing `None` with `datetime`); otherwise all needed comparisons are
defined. -/
def hasMixedPair (posts : List Post) : Bool :=
  posts.any fun p => posts.any fun q =>
    p.author_username == q.author_username &&
      ((postMicros p.post_time).isSome != (postMicros q.post_time).isSome)

/-- Continuation test between consecutive sorted posts: the Python loop
keeps `post` in the current thread iff the author is unchanged, both
times parse, and the absolute gap is at most the threshold (in
microseconds). -/
def sameThread (thrUs : Nat) (p q : Post) : Bool :=
  p.author_username == q.author_username &&
    match postMicros p.post_time, postMicros q.post_time with
    | some a, some b => (b - a).natAbs ≤ thrUs
    | _, _ => false

/-- `abs((post_time - last_time).total_seconds()) > threshold*60` of the
source, on parsed times (in microseconds); the catch-all arm is shielded
by the `isNone` disjuncts of the loop condition. -/
def gapExceeds (thrUs : Nat) : Option Int → Option Int → Bool
  | some a, some b => decide (thrUs < (b - a).natAbs)
  | _, _ => true

/-- The accumulator loop of `detect_and_group_threads`, with state
`(threads, current_thread, last_author, last_time)` exactly as in the
source. -/
def detectLoop (thrUs : Nat) :
    List Post → List (List Post) → List Post → Option String → Option Int →
      List (List Post)
  | [], threads, current, _, _ =>
    if current.isEmpty then threads else threads ++ [current]
  | p :: rest, threads, current, lastA, lastT =>
    let pt := postMicros p.post_time
    let newThread : Bool :=
      !(lastA == some p.author_username) || lastT.isNone || pt.isNone ||
        gapExceeds thrUs lastT pt
    if newThread then
      detectLoop thrUs rest (if current.isEmpty then threads else threads ++ [current])
        [p] (some p.author_username) pt
    else
      detectLoop thrUs rest threads (current ++ [p]) (some p.author_username) pt

/-- `detect_and_group_threads(posts, time_threshold_minutes)`:
empty input short-circuits; then the list is stably sorted by
`(author, parsed time)` — raising `TypeError` on a mixed same-author
pair — and chunked by author/time-gap.  The threshold is minutes. -/
def detectAndGroupThreads (posts : List Post) (thresholdMinutes : Nat := 5) :
    Except String (List (List Post)) :=
  if posts.isEmpty then .ok []
  else if hasMixedPair posts then
    .error "TypeError: cannot compare NoneType and datetime sort keys"
  else
    .ok (detectLoop (thresholdMinutes * 60000000)
      (List.insertionSort keyLE posts) [] [] none none)

/-- Sort key of `merge_thread_content`:
`_parse_post_time(post_time) or datetime.min`. -/
def mergeKey (p : Post) : Int :=
  match postMicros p.post_time with
  | some t => t
  | none => datetimeMinMicros

/-- The (stable) time order used inside `merge_thread_content`. -/
def mergeLE (p q : Post) : Prop := (decide (mergeKey p ≤ mergeKey q)) = true

instance : DecidableRel mergeLE := fun _ _ => instDecidableEqBool _ true

/-- `generate_thread_id(thread_posts)`: empty input gives `""`; otherwise
`platform_author_` plus the first 16 hex chars of
`md5(f"{platform}_{author}_{post_time}_{len(thread_posts)}")`. -/
def generateThreadId : List Post → String
  | [] => ""
  | p :: rest =>
    let uniqueString :=
      p.platform ++ "_" ++ p.author_username ++ "_" ++ p.post_time ++ "_" ++
        toString (rest.length + 1)
    p.platform ++ "_" ++ p.author_username ++ "_" ++ (MD5.md5Hex uniqueString).take 16

/-- Python's `str.strip()` on the whitespace the model's strings use:
drop leading and trailing whitespace characters. -/
def pyStrip (s : String) : String :=
  ⟨((s.data.dropWhile Char.isWhitespace).reverse.dropWhile
      Char.isWhitespace).reverse⟩

/-- `merge_thread_content(thread_posts)`: empty input gives the empty
dict (modelled by the default post); a singleton is returned unchanged;
otherwise the members are re-sorted by time, the non-blank contents are
numbered `i/N: text` over the sorted positions and joined by newlines,
and the first member is copied and updated. -/
def mergeThreadContent : List Post → Post
  | [] => default
  | [p] => p
  | g =>
    let sorted := List.insertionSort mergeLE g
    let first := sorted.headD default
    let last := sorted.getLastD default
    let n := sorted.length
    let parts := sorted.enum.filterMap fun ip =>
      let c := pyStrip ip.2.original_content
      if c = "" then none
      else some (toString (ip.1 + 1) ++ "/" ++ toString n ++ ": " ++ c)
    { first with
      original_content := String.intercalate "\n" parts,
      is_thread := some true,
      thread_count := some g.length,
      thread_posts := g,
      timeRange := some (first.post_time, last.post_time) }

/-- One thread group through `batch_analyze`'s aggregation skeleton: the
thread id is generated from the group, a singleton is passed through with
its `thread_id` set, a multi-member group is merged and tagged.  (The AI
scoring that `batch_analyze` applies afterwards is outside the
aggregation contract and not modelled.) -/
def processThreadGroup (g : List Post) : Post :=
  match g with
  | [p] => { p with thread_id := some (generateThreadId [p]) }
  | g' => { mergeThreadContent g' with thread_id := some (generateThreadId g') }

/-- The aggregation pipeline of `batch_analyze`: grouping followed by
per-group merging/tagging.  Propagates the `TypeError` of the sort. -/
def aggregatePipeline (posts : List Post) : Except String (List Post) :=
  (detectAndGroupThreads posts).map fun threads => threads.map processThreadGroup

end AIClient

/-! ## Twitter client fallback (`src/services/post_collector.py`)

One acquisition for one account, against the two client types the
collector knows (`nitter`, `agent`).  A client's observable behaviour for
the account is its availability probe (`test_connection` /
`is_available`, with initialisation exceptions collapsed into `false`
since the source catches them) and the outcome of `get_user_tweets`
(a raised exception or a post list).  Posts are opaque (numbered). -/

namespace PostCollector

inductive ClientType
  | nitter
  | agent
deriving Repr, DecidableEq

/-- The other client type (`_try_fallback_clients` falls back from Agent
to Nitter and from Nitter to Agent). -/
def otherClient : ClientType → ClientType
  | .nitter => .agent
  | .agent => .nitter

structure ClientBehavior where
  avail : Bool
  fetch : Except String (List Nat)
deriving Repr

structure TwWorld where
  nitterConfigured : Bool
  agentCreds : Bool
  nitter : ClientBehavior
  agent : ClientBehavior
deriving Repr

/-- Behaviour of a given client type in a world. -/
def clientOf : ClientType → TwWorld → ClientBehavior
  | .nitter, w => w.nitter
  | .agent, w => w.agent

/-- Configuration gate: `_try_nitter_client` requires `NITTER_INSTANCES`,
`_try_agent_client` requires the Twitter credentials env vars. -/
def configured : ClientType → TwWorld → Bool
  | .nitter, w => w.nitterConfigured
  | .agent, w => w.agentCreds

/-- Can this client type be initialised (`_try_nitter_client` /
`_try_agent_client` returning `True`)? -/
def initOk (t : ClientType) (w : TwWorld) : Bool :=
  configured t w && (clientOf t w).avail

/-- `_initialize_twitter_client`: walk the configured priority order and
keep the first client type that initialises. -/
def initializeTwitterClient : List ClientType → TwWorld → Option ClientType
  | [], _ => none
  | t :: rest, w => if initOk t w then some t else initializeTwitterClient rest w

/-- `_try_nitter_fallback` / `_try_agent_fallback` for client type `t`:
returns the posts obtained plus the trace of `get_user_tweets`
invocations (`[t]` when the client was actually asked for posts).  All
exceptions are caught and give `[]`. -/
def tryClientFallback (t : ClientType) (w : TwWorld) : List Nat × List ClientType :=
  if configured t w then
    if (clientOf t w).avail then
      match (clientOf t w).fetch with
      | .ok ps => (ps, [t])
      | .error _ => ([], [t])
    else ([], [])
  else ([], [])

/-- The priority-order loop of `_try_fallback_clients` when no primary
client exists: try each configured type in order, stopping at the first
non-empty post list. -/
def fallbackLoop (w : TwWorld) : List ClientType → List Nat × List ClientType
  | [] => ([], [])
  | t :: rest =>
    let r := tryClientFallback t w
    if r.1.isEmpty then
      let r' := fallbackLoop w rest
      (r'.1, r.2 ++ r'.2)
    else r

/-- `_try_fallback_clients`: from an Agent primary fall back to Nitter,
from a Nitter primary fall back to Agent, and with no primary walk the
priority list. -/
def tryFallbackClients (current : Option ClientType) (priority : List ClientType)
    (w : TwWorld) : List Nat × List ClientType :=
  match current with
  | some t => tryClientFallback (otherClient t) w
  | none => fallbackLoop w priority

/-- `_collect_twitter_posts_with_fallback`: try the primary client first
(returning its posts when non-empty), otherwise fall back.  The second
component is the ordered trace of `get_user_tweets` invocations. -/
def collectTwitterPostsWithFallback (priority : List ClientType) (w : TwWorld) :
    List Nat × List ClientType :=
  match initializeTwitterClient priority w with
  | none => tryFallbackClients none priority w
  | some t =>
    match (clientOf t w).fetch with
    | .ok ps =>
      if ps.isEmpty then
        let r := tryFallbackClients (some t) priority w
        (r.1, t :: r.2)
      else (ps, [t])
    | .error _ =>
      let r := tryFallbackClients (some t) priority w
      (r.1, t :: r.2)

/-- `_collect_posts_for_account` for a twitter account: the whole body is
wrapped in `try/except`, every client exception is already caught inside
the fallback helpers, and only the post list is returned. -/
def collectPostsForAccount (priority : List ClientType) (w : TwWorld) : List Nat :=
  (collectTwitterPostsWithFallback priority w).1

/-- Did this client invocation succeed in the claim's sense (a non-empty
post list)? -/
def fetchSucceeds (t : ClientType) (w : TwWorld) : Bool :=
  match (clientOf t w).fetch with
  | .ok ps => !ps.isEmpty
  | .error _ => false

/-- The failure reason each failing invoked client contributes to the
log (`logger.warning`/`logger.error` messages carry the exception text or
a "returned no posts" notice); the collector logs these in invocation
order but does not return them. -/
def failureReasons (priority : List ClientType) (w : TwWorld) : List String :=
  (collectTwitterPostsWithFallback priority w).2.filterMap fun t =>
    match (clientOf t w).fetch with
    | .error e => some e
    | .ok ps => if ps.isEmpty then some "returned no posts" else none

end PostCollector

/-! ## Mirror-instance rate limiting (`src/clients/nitter_client.py`) -/

namespace NitterClient

/-- One value of `self.rate_limit_tracker[instance]`. -/
structure RateLimitEntry where
  count : Nat
  lastRateLimit : Nat
  backoffDelay : Nat
deriving Repr, DecidableEq

/-- `self.rate_limit_cooldown = 300` (seconds). -/
def rateLimitCooldown : Nat := 300

/-- `_record_rate_limit`: first event installs `count=0, backoff=30`;
each further event bumps the counter and doubles the backoff, capped at
240 seconds. -/
def recordRateLimit (tracker : Option RateLimitEntry) (now : Nat) : RateLimitEntry :=
  match tracker with
  | none => ⟨0, now, 30⟩
  | some t => ⟨t.count + 1, now, min (30 * 2 ^ (t.count + 1)) 240⟩

/-- `_is_instance_in_cooldown`: an instance is cooling down for
`rate_limit_cooldown` seconds after its last recorded 429. -/
def isInstanceInCooldown (tracker : Option RateLimitEntry) (now : Nat) : Bool :=
  match tracker with
  | none => false
  | some t => now < t.lastRateLimit + rateLimitCooldown

/-- `_get_backoff_delay`. -/
def getBackoffDelay (tracker : Option RateLimitEntry) : Nat :=
  match tracker with
  | none => 0
  | some t => t.backoffDelay

/-- The tracker state of one instance after a sequence of rate-limit
events at the given times. -/
def trackerAfter : List Nat → Option RateLimitEntry
  | [] => none
  | ts₀ :: ts => some (ts.foldl (fun acc now => recordRateLimit (some acc) now)
      (recordRateLimit none ts₀))

/-- The per-call tracker map. -/
def Tracker := String → Option RateLimitEntry

/-- The instance loop of `get_user_tweets`: each instance of the list is
requested in turn; a 404 or a 200 returns immediately, a 429 records the
rate limit on that instance and sleeps its (new) backoff delay before
moving on, anything else just moves on.  `σ` is the anti-detection sleep
after each request, `status` the HTTP status each instance would answer.
The result is the trace of `(instance, request time)` pairs. -/
def fetchLoop (σ : Nat) (status : String → Nat) :
    List String → Tracker → Nat → List (String × Nat)
  | [], _, _ => []
  | i :: rest, tr, now =>
    (i, now) ::
      (if status i == 404 then []
       else if status i == 429 then
        let e := recordRateLimit (tr i) now
        fetchLoop σ status rest (fun j => if j == i then some e else tr j)
          (now + σ + e.backoffDelay)
       else if status i == 200 then []
       else fetchLoop σ status rest tr (now + σ))

/-- `min(...)` over the backoff delays of the pool (Python `min` of a
non-empty list, seeded with the first element's delay). -/
def minPoolBackoff (working : List String) (tr : Tracker) : Nat :=
  (working.map fun i => getBackoffDelay (tr i)).foldr min
    (getBackoffDelay (tr (working.headD "")))

/-- The instance-selection preamble of `get_user_tweets`: filter out
instances in cooldown; if none remain, wait the minimum backoff delay of
the pool (when positive) and filter again; then run the fetch loop.  The
empty pool returns no trace (`if not self.working_instances: return`). -/
def getUserTweetsTrace (σ : Nat) (status : String → Nat)
    (working : List String) (tr : Tracker) (now : Nat) : List (String × Nat) :=
  if working.isEmpty then []
  else if (working.filter fun i => !isInstanceInCooldown (tr i) now).isEmpty then
    if 0 < minPoolBackoff working tr then
      fetchLoop σ status
        (working.filter fun i =>
          !isInstanceInCooldown (tr i) (now + minPoolBackoff working tr))
        tr (now + minPoolBackoff working tr)
    else fetchLoop σ status [] tr now
  else fetchLoop σ status (working.filter fun i => !isInstanceInCooldown (tr i) now) tr now

end NitterClient

/-! ## Authenticated timeline fetch (`src/clients/x_auth_client.py`) -/

namespace XAuthClient

/-- Result of `_parse_twitter_time(tweet['created_at'])`: the primary
Twitter format (`%a %b %d %H:%M:%S %z %Y`, which carries `%z`) and
offset-bearing ISO strings yield a timezone-aware datetime, ISO strings
without an offset a naive one, anything else `None`.  The payload is the
timestamp in microseconds (UTC for aware values). -/
inductive TwTime
  | aware (t : Int)
  | naive (t : Int)
deriving Repr, DecidableEq

/-- One tweet as seen by the window check of `_fetch_user_tweets`:
`createdAt` is the result of `_parse_twitter_time(tweet['created_at'])`
(`none` when unparseable), `payload` stands for the rest of the tweet
data. -/
structure XTweet where
  createdAt : Option TwTime
  payload : Nat
deriving Repr, DecidableEq

/-- One GraphQL page response: HTTP success flag, the tweets parsed out
of it, and whether a bottom cursor with `has_more` came back. -/
structure XPage where
  ok : Bool
  tweets : List XTweet
  cursor : Bool
deriving Repr, DecidableEq

/-- Python's `tweet_time < cutoff_date`, where `cutoff_date =
datetime.now() - timedelta(days=days_back)` is naive: a naive parsed time
compares by value, an aware one raises `TypeError` (offset-naive versus
offset-aware). -/
def ltCutoff (cutoff : Int) : TwTime → Except String Bool
  | .naive t => .ok (decide (t < cutoff))
  | .aware _ => .error "TypeError: cannot compare naive and aware datetimes"

/-- The `for tweet in new_tweets` body: tweets are appended until the
first tweet at which the loop stops — by the in-loop `return tweets`
(naive parsed time strictly before the cutoff) or by the `TypeError` of
the aware-versus-naive comparison escaping to the catch-all `except`,
which also answers `return tweets` — dropping that tweet and everything
after it (second component `true`).  A `None` parsed time is falsy, is
appended, and never stops the scan. -/
def scanTweets (cutoff : Int) : List XTweet → List XTweet × Bool
  | [] => ([], false)
  | tw :: rest =>
    match tw.createdAt with
    | some tt =>
      match ltCutoff cutoff tt with
      | .error _ => ([], true)
      | .ok true => ([], true)
      | .ok false =>
        let r := scanTweets cutoff rest
        (tw :: r.1, r.2)
    | none =>
      let r := scanTweets cutoff rest
      (tw :: r.1, r.2)

/-- The `while request_count < max_requests` loop of `_fetch_user_tweets`
over the successive page responses (an exhausted response list behaves
like a failed request).  `acc` is the `tweets` accumulator.  A stopping
scan ends the whole fetch with the tweets gathered so far, whether the
stop was the in-loop `return tweets` or the `TypeError` caught by the
function-level `except` (which also returns the accumulator). -/
def fetchGo (cutoff : Int) : Nat → List XPage → List XTweet → List XTweet
  | 0, _, acc => acc
  | _ + 1, [], acc => acc
  | n + 1, p :: ps, acc =>
    if !p.ok then acc
    else if p.tweets.isEmpty then acc
    else
      let s := scanTweets cutoff p.tweets
      if s.2 then acc ++ s.1
      else if p.cursor then fetchGo cutoff n ps (acc ++ s.1)
      else acc ++ s.1

/-- `_fetch_user_tweets` with `max_requests = 5`. -/
def fetchUserTweets (responses : List XPage) (cutoff : Int) : List XTweet :=
  fetchGo cutoff 5 responses []

end XAuthClient

/-! ## Timeline response parsing (`src/clients/x_endpoints.py`)

The parser walks an untyped JSON-ish value with Python `dict.get`,
iteration, truthiness and `str.startswith`; each of those raises on values
of the wrong runtime type, which the embedding models in
`Except String`. -/

inductive JValue
  | null
  | bool (b : Bool)
  | num (n : Int)
  | str (s : String)
  | arr (xs : List JValue)
  | obj (fields : List (String × JValue))
deriving Repr

namespace XEndpoints

/-- First binding of a key in an object (dict keys are unique). -/
def jlookup : List (String × JValue) → String → Option JValue
  | [], _ => none
  | f :: fs, k => if f.1 == k then some f.2 else jlookup fs k

/-- Python `v.get(k, dflt)`: only dicts have `.get`; anything else raises
`AttributeError`. -/
def pyGet (v : JValue) (k : String) (dflt : JValue) : Except String JValue :=
  match v with
  | .obj fs => .ok ((jlookup fs k).getD dflt)
  | _ => .error "AttributeError"

/-- Python `v.get(k)` (default `None`). -/
def pyGet1 (v : JValue) (k : String) : Except String JValue := pyGet v k .null

/-- Python `for x in v`: lists yield elements, strings their characters,
dicts their keys; other values raise `TypeError`. -/
def pyIter (v : JValue) : Except String (List JValue) :=
  match v with
  | .arr xs => .ok xs
  | .str s => .ok (s.data.map fun c => .str (String.mk [c]))
  | .obj fs => .ok (fs.map fun f => .str f.1)
  | _ => .error "TypeError"

/-- Python truthiness. -/
def pyTruthy (v : JValue) : Bool :=
  match v with
  | .null => false
  | .bool b => b
  | .num n => n != 0
  | .str s => s != ""
  | .arr xs => !xs.isEmpty
  | .obj fs => !fs.isEmpty

/-- Python `v == "lit"` for an arbitrary runtime value `v`: true exactly
for the equal string (no exception). -/
def jIsStr (v : JValue) (s : String) : Bool :=
  match v with
  | .str t => t == s
  | _ => false

/-- Python `v is None`. -/
def jIsNull (v : JValue) : Bool :=
  match v with
  | .null => true
  | _ => false

/-- Python `v.startswith(pre)`: only strings have `.startswith`. -/
def pyStartsWith (v : JValue) (pre : String) : Except String Bool :=
  match v with
  | .str s => .ok (pre.data.isPrefixOf s.data)
  | _ => .error "AttributeError"

/-- The typed record `_extract_tweet_from_entry` builds (field values stay
as the Python values found; `user` and `media` keys are only set when
their sources are truthy). -/
structure TweetData where
  id : JValue
  createdAt : JValue
  fullText : JValue
  userId : JValue
  conversationId : JValue
  lang : JValue
  replyCount : JValue
  retweetCount : JValue
  favoriteCount : JValue
  quoteCount : JValue
  viewCount : JValue
  user : Option (JValue × JValue × JValue)
  media : Option (List (JValue × JValue × JValue))
deriving Repr

/-- The `try` body of `_extract_tweet_from_entry` (its `except` clause is
applied in `extractTweetFromEntry`). -/
def extractBody (entry : JValue) : Except String (Option TweetData) := do
  let content ← pyGet entry "content" (.obj [])
  let itemContent ← pyGet content "itemContent" (.obj [])
  let tweetResults ← pyGet itemContent "tweet_results" (.obj [])
  let result ← pyGet tweetResults "result" (.obj [])
  if !pyTruthy result then return none
  let tn ← pyGet1 result "__typename"
  if !jIsStr tn "Tweet" then return none
  let legacy ← pyGet result "legacy" (.obj [])
  let restId ← pyGet1 result "rest_id"
  let createdAt ← pyGet1 legacy "created_at"
  let fullText ← pyGet legacy "full_text" (.str "")
  let userId ← pyGet1 legacy "user_id_str"
  let conversationId ← pyGet1 legacy "conversation_id_str"
  let lang ← pyGet1 legacy "lang"
  let replyCount ← pyGet legacy "reply_count" (.num 0)
  let retweetCount ← pyGet legacy "retweet_count" (.num 0)
  let favoriteCount ← pyGet legacy "favorite_count" (.num 0)
  let quoteCount ← pyGet legacy "quote_count" (.num 0)
  let views ← pyGet result "views" (.obj [])
  let viewCount ← pyGet1 views "count"
  let core ← pyGet result "core" (.obj [])
  let userResults ← pyGet core "user_results" (.obj [])
  let userResult ← pyGet userResults "result" (.obj [])
  let user ←
    if pyTruthy userResult then do
      let ulegacy ← pyGet userResult "legacy" (.obj [])
      let screenName ← pyGet1 ulegacy "screen_name"
      let name ← pyGet1 ulegacy "name"
      let followers ← pyGet ulegacy "followers_count" (.num 0)
      pure (some (screenName, name, followers))
    else pure none
  let entities ← pyGet legacy "entities" (.obj [])
  let media ← pyGet entities "media" (.arr [])
  let mediaOut ←
    if pyTruthy media then do
      let items ← pyIter media
      let l ← items.mapM fun mi => do
        let ty ← pyGet1 mi "type"
        let mu ← pyGet1 mi "media_url_https"
        let u ← pyGet1 mi "url"
        pure (ty, mu, u)
      pure (some l)
    else pure none
  return some ⟨restId, createdAt, fullText, userId, conversationId, lang, replyCount,
    retweetCount, favoriteCount, quoteCount, viewCount, user, mediaOut⟩

/-- `_extract_tweet_from_entry`: any exception in the body becomes
`None`. -/
def extractTweetFromEntry (entry : JValue) : Option TweetData :=
  match extractBody entry with
  | .ok r => r
  | .error _ => none

/-- The `for entry in entries` body of `parse_user_tweets_response`:
tweet entries are extracted (a `None` extraction is skipped), bottom
cursor entries overwrite the cursor, everything else is ignored.  Note
the `entry.get`/`startswith` calls here are *outside* the extractor's
`try`, so a malformed entry shape raises out of this loop. -/
def processEntries : List JValue → List TweetData → JValue →
    Except String (List TweetData × JValue)
  | [], tweets, cursor => .ok (tweets, cursor)
  | e :: rest, tweets, cursor => do
    let eid ← pyGet e "entryId" (.str "")
    let isTweet ← pyStartsWith eid "tweet-"
    if isTweet then
      match extractTweetFromEntry e with
      | some td => processEntries rest (tweets ++ [td]) cursor
      | none => processEntries rest tweets cursor
    else
      let isCursor ← pyStartsWith eid "cursor-bottom-"
      if isCursor then
        let content ← pyGet e "content" (.obj [])
        let v ← pyGet1 content "value"
        processEntries rest tweets v
      else processEntries rest tweets cursor

/-- The `for instruction in instructions` loop. -/
def processInstructions : List JValue → List TweetData → JValue →
    Except String (List TweetData × JValue)
  | [], tweets, cursor => .ok (tweets, cursor)
  | ins :: rest, tweets, cursor => do
    let ty ← pyGet1 ins "type"
    if jIsStr ty "TimelineAddEntries" then
      let entriesV ← pyGet ins "entries" (.arr [])
      let entries ← pyIter entriesV
      let tc ← processEntries entries tweets cursor
      processInstructions rest tc.1 tc.2
    else processInstructions rest tweets cursor

/-- The parsed result dict (`cursor = JValue.null` models Python
`None`). -/
structure ParsedTweets where
  tweets : List TweetData
  cursor : JValue
  hasMore : Bool
deriving Repr

/-- The `try` body of `parse_user_tweets_response`. -/
def parseBody (responseData : JValue) : Except String ParsedTweets := do
  let data ← pyGet responseData "data" (.obj [])
  let user ← pyGet data "user" (.obj [])
  let result ← pyGet user "result" (.obj [])
  let tv2 ← pyGet result "timeline_v2" (.obj [])
  let timeline ← pyGet tv2 "timeline" (.obj [])
  let instructionsV ← pyGet timeline "instructions" (.arr [])
  let instructions ← pyIter instructionsV
  let tc ← processInstructions instructions [] .null
  return ⟨tc.1, tc.2, !jIsNull tc.2⟩

/-- `parse_user_tweets_response`: the catch-all `except` re-raises every
body failure as `ValueError(f"Failed to parse user tweets response: …")`,
which therefore still escapes to the caller. -/
def parseUserTweetsResponse (responseData : JValue) : Except String ParsedTweets :=
  match parseBody responseData with
  | .ok r => .ok r
  | .error e => .error ("Failed to parse user tweets response: " ++ e)

end XEndpoints

/-! ## Interactive login state machine (`src/clients/x_auth_flow.py`)

The server is modelled as the script of responses it returns to
successive flow-task requests; the client's visible behaviour is the
number of flow-task requests it issues and how `login_user` terminates.
Delays, request payloads and cookie bookkeeping do not influence the
control flow and are not modelled. -/

namespace XAuthFlow

/-- What one `onboarding/task` POST comes back with. -/
structure ServerResponse where
  ok : Bool
  errors : List (Int × String)
  flowToken : Option String
  subtasks : List String
deriving Repr, DecidableEq

/-- The dictionary `_execute_flow_task` returns, by `status`. -/
inductive FlowResult
  | error (e : String)
  | success (flowToken : String)
  | cont (flowToken : String) (subtaskId : String)
deriving Repr, DecidableEq

/-- Response processing of `_execute_flow_task`: HTTP failure and
API-error payloads give an error status, a missing flow token gives an
error status, a leading `DenyLoginSubtask` is turned into the
`Login denied by Twitter` error, no subtask or `LoginSuccessSubtask`
gives success, anything else continues with the first subtask. -/
def executeFlowTask (resp : ServerResponse) : FlowResult :=
  if !resp.ok then .error "HTTP error"
  else if !resp.errors.isEmpty then
    .error (String.intercalate "; "
      (resp.errors.map fun e => "Code " ++ toString e.1 ++ ": " ++ e.2))
  else
    match resp.flowToken with
    | none => .error "No flow_token in response"
    | some ft =>
      match resp.subtasks.head? with
      | some sid =>
        if sid = "DenyLoginSubtask" then .error "Login denied by Twitter"
        else if sid = "LoginSuccessSubtask" then .success ft
        else .cont ft sid
      | none => .success ft

/-- Login credentials that gate some handlers. -/
structure LoginCfg where
  email : Option String
  totpSecret : Option String
deriving Repr, DecidableEq

/-- The subtask identifiers `login_user` dispatches on. -/
def recognizedSubtasks : List String :=
  ["LoginJsInstrumentationSubtask", "LoginEnterUserIdentifierSSO",
   "LoginEnterAlternateIdentifierSubtask", "LoginEnterPassword",
   "AccountDuplicationCheck", "LoginTwoFactorAuthChallenge", "LoginAcid",
   "LoginSuccessSubtask"]

/-- Take the next scripted response; an exhausted script behaves like a
request the server failed to answer. -/
def takeResp : List ServerResponse → ServerResponse × List ServerResponse
  | [] => (⟨false, [], none, []⟩, [])
  | r :: rs => (r, rs)

/-- Substring test (Python `'2fa' in s`). -/
def containsSub (hay sub : List Char) : Bool := hay.tails.any fun t => sub.isPrefixOf t

/-- `_handle_2fa`: up to 3 attempts; an error result mentioning `2fa`
retries in the next TOTP window, any other result is returned, and
exhausting the attempts raises.  Returns the (possibly raised) result,
the remaining script and the number of requests issued. -/
def handle2FA : Nat → List ServerResponse →
    Except String FlowResult × List ServerResponse × Nat
  | 0, script => (.error "2FA authentication failed after 3 attempts", script, 0)
  | n + 1, script =>
    let t := takeResp script
    let res := executeFlowTask t.1
    match res with
    | .error e =>
      if containsSub e.toLower.data "2fa".data then
        let r := handle2FA n t.2
        (r.1, r.2.1, r.2.2 + 1)
      else (.ok res, t.2, 1)
    | _ => (.ok res, t.2, 1)

/-- How the `while` loop of `login_user` ends: an exception propagating
out of it, or a terminal flow status. -/
inductive LoopExit
  | raised (msg : String)
  | finished (fr : FlowResult)
deriving Repr, DecidableEq

/-- The subtask-dispatch `while` loop of `login_user`.  Each recognized
subtask issues one flow-task request (2FA up to three); an unrecognized
subtask, or a recognized one whose credential is missing, raises before
issuing any request.  The second component counts requests issued inside
the loop.  (`fuel` only bounds the recursion; `login_user` always
supplies enough, since every iteration consumes scripted responses.) -/
def loginLoop (cfg : LoginCfg) : Nat → List ServerResponse → FlowResult →
    LoopExit × Nat
  | 0, _, fr => (.finished fr, 0)
  | fuel + 1, script, fr =>
    match fr with
    | .cont _ sid =>
      if sid = "LoginTwoFactorAuthChallenge" then
        if cfg.totpSecret.isNone then (.raised "TOTP secret required for 2FA", 0)
        else
          let r := handle2FA 3 script
          match r.1 with
          | .error m => (.raised m, r.2.2)
          | .ok res =>
            let nxt := loginLoop cfg fuel r.2.1 res
            (nxt.1, r.2.2 + nxt.2)
      else if sid = "LoginAcid" && cfg.email.isNone then
        (.raised "Email required for LoginAcid", 0)
      else if recognizedSubtasks.contains sid then
        let t := takeResp script
        let nxt := loginLoop cfg fuel t.2 (executeFlowTask t.1)
        (nxt.1, nxt.2 + 1)
      else (.raised ("Unknown subtask: " ++ sid), 0)
    | fr => (.finished fr, 0)

/-- Terminal outcome of `login_user` for its caller. -/
inductive LoginResult
  | success
  | fatal (msg : String)
deriving Repr, DecidableEq

/-- `login_user` over a response script: the `_init_login_flow` request
consumes the first response, the loop runs, and a non-success end is
re-raised as a fatal `Login failed: …` (or the in-loop exception).  The
second component is the total number of flow-task requests issued. -/
def loginUser (cfg : LoginCfg) (script : List ServerResponse) : LoginResult × Nat :=
  let t := takeResp script
  let fr0 := executeFlowTask t.1
  let r := loginLoop cfg (t.2.length + 2) t.2 fr0
  (match r.1 with
   | .raised m => .fatal m
   | .finished (.success _) => .success
   | .finished (.error e) => .fatal ("Login failed: " ++ e)
   | .finished (.cont _ _) => .fatal "Login failed: Unknown error",
   r.2 + 1)

end XAuthFlow

/-! ## Derived and specification-side definitions used by the theorems -/

namespace AIClient

/-- Longest chained run: `spanChain r a l` splits `l` into the maximal
head segment whose elements continue the chain started at `a` under `r`,
and the remainder. -/
def spanChain (r : Post → Post → Bool) : Post → List Post → List Post × List Post
  | _, [] => ([], [])
  | a, b :: l =>
    if r a b then
      let s := spanChain r b l
      (b :: s.1, s.2)
    else ([], b :: l)

theorem spanChain_snd_length (r : Post → Post → Bool) :
    ∀ (a : Post) (l : List Post), (spanChain r a l).2.length ≤ l.length := by
  intro a l
  induction l generalizing a with
  | nil => simp [spanChain]
  | cons b l ih =>
    simp only [spanChain]
    by_cases h : r a b
    · simpa [h] using Nat.le_succ_of_le (ih b)
    · simp [h]

/-- Specification-side chunking: cut a list into maximal runs chained by
`r`.  `detect_and_group_threads` computes exactly this on the sorted
input (`detectLoop_eq_chunkBy` below), with `r` = "same author, both
times parse, gap at most the threshold". -/
def chunkBy (r : Post → Post → Bool) : List Post → List (List Post)
  | [] => []
  | a :: l =>
    (a :: (spanChain r a l).1) :: chunkBy r (spanChain r a l).2
termination_by l => l.length
decreasing_by
  simp only [List.length_cons]
  exact Nat.lt_succ_of_le (spanChain_snd_length _ _ _)

/-- Scenario input: first of two posts 3 minutes apart. -/
def scenA1 : Post :=
  { platform := "twitter", post_id := "1", author_username := "alice",
    original_content := "hello", post_time := "2024-01-01T00:00:00", thread_posts := [] }

/-- Scenario input: second post, 3 minutes after `scenA1`. -/
def scenA2 : Post :=
  { platform := "twitter", post_id := "2", author_username := "alice",
    original_content := "world", post_time := "2024-01-01T00:03:00", thread_posts := [] }

/-- Scenario input: same author as `scenA1` but 40 minutes later. -/
def scenA40 : Post :=
  { platform := "twitter", post_id := "3", author_username := "alice",
    original_content := "later", post_time := "2024-01-01T00:40:00", thread_posts := [] }

/-- Original contents of an aggregation result, for stating concrete
scenario facts without full record equality. -/
def contentsOf (e : Except String (List Post)) : Option (List String) :=
  e.toOption.map fun l => l.map Post.original_content

/-- Thread counts of an aggregation result. -/
def threadCountsOf (e : Except String (List Post)) : Option (List (Option Nat)) :=
  e.toOption.map fun l => l.map Post.thread_count

/-- Thread ids of an aggregation result. -/
def threadIdsOf (e : Except String (List Post)) : Option (List (Option String)) :=
  e.toOption.map fun l => l.map Post.thread_id

/-- Do the first two records of an aggregation result carry different
thread ids? -/
def firstTwoIdsDiffer (e : Except String (List Post)) : Bool :=
  match e with
  | .ok l => !((l.map Post.thread_id).getD 0 none == (l.map Post.thread_id).getD 1 none)
  | .error _ => false

end AIClient

namespace XAuthClient

/-- Does the loop body stop at this tweet?  It does exactly when the
parsed time is aware (the comparison with the naive cutoff raises
`TypeError`) or naive and strictly before the cutoff; a `None` parsed
time never stops the scan. -/
def stopsScan (cutoff : Int) (tw : XTweet) : Bool :=
  match tw.createdAt with
  | some tt =>
    match ltCutoff cutoff tt with
    | .error _ => true
    | .ok b => b
  | none => false

end XAuthClient

namespace XEndpoints

/-- A tweet timeline entry with well-formed envelope (a dict with a
`tweet-` entry id) and arbitrary — possibly malformed — inner content. -/
def mkTweetEntry (c : JValue) : JValue :=
  .obj [("entryId", .str "tweet-x"), ("content", c)]

/-- A response whose skeleton down to the entry list is well-formed. -/
def wrapResponse (entries : List JValue) : JValue :=
  .obj [("data", .obj [("user", .obj [("result", .obj [("timeline_v2",
    .obj [("timeline", .obj [("instructions", .arr [.obj [("type",
      .str "TimelineAddEntries"), ("entries", .arr entries)]])])])])])])]

end XEndpoints

namespace PostCollector

/-- Counterexample world: the agent client is available but yields zero
posts, nitter is available and yields one post. -/
def cexWorld : TwWorld :=
  { nitterConfigured := true, agentCreds := true,
    nitter := ⟨true, .ok [7]⟩, agent := ⟨true, .ok []⟩ }

/-- All-fail world 1: nitter raises `boom`, agent returns no posts. -/
def failWorldA : TwWorld :=
  { nitterConfigured := true, agentCreds := true,
    nitter := ⟨true, .error "boom"⟩, agent := ⟨true, .ok []⟩ }

/-- All-fail world 2: like `failWorldA` but nitter raises `crash`. -/
def failWorldB : TwWorld :=
  { nitterConfigured := true, agentCreds := true,
    nitter := ⟨true, .error "crash"⟩, agent := ⟨true, .ok []⟩ }

end PostCollector

namespace AIClient

/-- Two rounds of the aggregation pipeline (the second applied to the
first's output when it succeeded). -/
def pipelineTwice (posts : List Post) : Except String (List Post) :=
  match aggregatePipeline posts with
  | .ok rs => aggregatePipeline rs
  | .error e => .error e

/-- The concrete output of aggregating the two 3-minutes-apart scenario
posts (one merged two-member thread record). -/
def firstAggregation : List Post :=
  match aggregatePipeline [scenA1, scenA2] with
  | .ok rs => rs
  | .error _ => []

end AIClient

/-! ## Theorems -/

namespace NitterClient

/-- Being out of cooldown is stable as time advances (the cooldown end of
a fixed tracker entry does not move). -/
theorem cooldown_mono {e : Option RateLimitEntry} {t t' : Nat}
    (h : isInstanceInCooldown e t = false) (htt : t ≤ t') :
    isInstanceInCooldown e t' = false := by
  cases e with
  | none => simp [isInstanceInCooldown]
  | some e =>
    simp only [isInstanceInCooldown, decide_eq_false_iff_not, Nat.not_lt] at h ⊢
    omega

/-- Instances requested by the fetch loop are never in cooldown (with
respect to the pre-call tracker `tr₀`) at their request time, given that
the loop starts on distinct instances none of which is cooling down. -/
theorem fetchLoop_not_in_cooldown (σ : Nat) (status : String → Nat) (tr₀ : Tracker) :
    ∀ (instances : List String) (tr : Tracker) (now : Nat),
      instances.Nodup →
      (∀ j ∈ instances, tr j = tr₀ j) →
      (∀ j ∈ instances, isInstanceInCooldown (tr₀ j) now = false) →
      ∀ i t, (i, t) ∈ fetchLoop σ status instances tr now →
        isInstanceInCooldown (tr₀ i) t = false := by
  intro instances
  induction instances with
  | nil => intro tr now _ _ _ i t h; simp [fetchLoop] at h
  | cons a rest ih =>
    intro tr now hnd hagree hcool i t hmem
    rw [List.nodup_cons] at hnd
    simp only [fetchLoop] at hmem
    rcases List.mem_cons.mp hmem with hhead | htail
    · simp only [Prod.mk.injEq] at hhead
      obtain ⟨h1, h2⟩ := hhead
      subst h1; subst h2
      exact hcool i (List.mem_cons_self _ _)
    · by_cases h404 : status a == 404
      · simp [h404] at htail
      · by_cases h429 : status a == 429
        · simp only [h404, h429, if_false, if_true] at htail
          refine ih _ _ hnd.2 ?_ ?_ i t htail
          · intro j hj
            have hja : (j == a) = false := by
              simp only [beq_eq_false_iff_ne]
              intro h; exact hnd.1 (h ▸ hj)
            rw [if_neg (by simp [hja])]
            exact hagree j (List.mem_cons_of_mem _ hj)
          · intro j hj
            exact cooldown_mono (hcool j (List.mem_cons_of_mem _ hj)) (by omega)
        · by_cases h200 : status a == 200
          · simp [h404, h429, h200] at htail
          · simp only [h404, h429, h200, if_false] at htail
            refine ih _ _ hnd.2 (fun j hj => hagree j (List.mem_cons_of_mem _ hj)) ?_ i t htail
            intro j hj
            exact cooldown_mono (hcool j (List.mem_cons_of_mem _ hj)) (by omega)

/-- The instances of the fetch-loop trace form a sublist of the instance
list (each instance is requested at most once per call). -/
theorem fetchLoop_fst_sublist (σ : Nat) (status : String → Nat) :
    ∀ (instances : List String) (tr : Tracker) (now : Nat),
      ((fetchLoop σ status instances tr now).map Prod.fst).Sublist instances := by
  intro instances
  induction instances with
  | nil => intro tr now; simp [fetchLoop]
  | cons a rest ih =>
    intro tr now
    simp only [fetchLoop]
    by_cases h404 : status a == 404
    · simp [h404]
    · by_cases h429 : status a == 429
      · simpa [h404, h429] using List.Sublist.cons₂ a (ih _ _)
      · by_cases h200 : status a == 200
        · simp [h404, h429, h200]
        · simpa [h404, h429, h200] using List.Sublist.cons₂ a (ih _ _)

/-- `backoffDelay` of any reachable tracker entry is
`min (30 · 2^count) 240`. -/
theorem foldl_record_shape :
    ∀ (ts : List Nat) (e : RateLimitEntry),
      e.backoffDelay = min (30 * 2 ^ e.count) 240 →
      (ts.foldl (fun acc now => recordRateLimit (some acc) now) e).backoffDelay =
        min (30 * 2 ^ (ts.foldl (fun acc now => recordRateLimit (some acc) now) e).count)
          240 := by
  intro ts
  induction ts with
  | nil => intro e he; simpa using he
  | cons t ts ih =>
    intro e _
    simpa using ih (recordRateLimit (some e) t) (by simp [recordRateLimit])

/-- One more rate-limit event never lowers a reachable entry's backoff
delay, and the new delay respects the 240-second cap. -/
theorem record_step_mono (E : RateLimitEntry) (now : Nat)
    (hE : E.backoffDelay = min (30 * 2 ^ E.count) 240) :
    getBackoffDelay (some E) ≤ (recordRateLimit (some E) now).backoffDelay ∧
      (recordRateLimit (some E) now).backoffDelay ≤ 240 := by
  constructor
  · simp only [getBackoffDelay, recordRateLimit, hE]
    exact min_le_min
      (Nat.mul_le_mul_left _ (Nat.pow_le_pow_right (by norm_num) (Nat.le_succ _))) le_rfl
  · simp only [recordRateLimit]
    exact min_le_right _ _

end NitterClient

/-- C3: after an HTTP 429 a mirror instance is skipped until its cooldown
expires, and the recorded backoff delay is non-decreasing and capped.
Part 1: every `(instance, time)` pair actually requested by
`get_user_tweets` satisfies "not in cooldown at that time" under the
tracker state the call started from.  Part 2: within one call the same
instance of a duplicate-free pool is never requested twice.  Part 3: over
any sequence of consecutive rate-limit events the recorded
`backoff_delay` never decreases and never exceeds the 240-second cap. -/
theorem claim3_rate_limit_cooldown_backoff :
    (∀ (σ : Nat) (status : String → Nat) (working : List String)
        (tr : NitterClient.Tracker) (now : Nat) (i : String) (t : Nat),
        working.Nodup →
        (i, t) ∈ NitterClient.getUserTweetsTrace σ status working tr now →
        NitterClient.isInstanceInCooldown (tr i) t = false) ∧
    (∀ (σ : Nat) (status : String → Nat) (working : List String)
        (tr : NitterClient.Tracker) (now : Nat),
        working.Nodup →
        ((NitterClient.getUserTweetsTrace σ status working tr now).map Prod.fst).Nodup) ∧
    (∀ (ts : List Nat) (now : Nat),
        NitterClient.getBackoffDelay (NitterClient.trackerAfter ts) ≤
          (NitterClient.recordRateLimit (NitterClient.trackerAfter ts) now).backoffDelay ∧
        (NitterClient.recordRateLimit (NitterClient.trackerAfter ts) now).backoffDelay ≤
          240) := by
  refine ⟨?_, ?_, ?_⟩
  · intro σ status working tr now i t hnd hmem
    unfold NitterClient.getUserTweetsTrace at hmem
    split at hmem
    · simp at hmem
    · split at hmem
      · split at hmem
        · refine NitterClient.fetchLoop_not_in_cooldown _ _ _ _ _ _
            (hnd.filter _) (fun j _ => rfl) ?_ i t hmem
          intro j hj
          simpa using (List.mem_filter.mp hj).2
        · simp [NitterClient.fetchLoop] at hmem
      · refine NitterClient.fetchLoop_not_in_cooldown _ _ _ _ _ _
          (hnd.filter _) (fun j _ => rfl) ?_ i t hmem
        intro j hj
        simpa using (List.mem_filter.mp hj).2
  · intro σ status working tr now hnd
    unfold NitterClient.getUserTweetsTrace
    split
    · simp
    · split
      · split
        · exact ((NitterClient.fetchLoop_fst_sublist _ _ _ _ _).nodup (hnd.filter _))
        · simp [NitterClient.fetchLoop]
      · exact ((NitterClient.fetchLoop_fst_sublist _ _ _ _ _).nodup (hnd.filter _))
  · intro ts now
    cases ts with
    | nil =>
      simp [NitterClient.trackerAfter, NitterClient.getBackoffDelay,
        NitterClient.recordRateLimit]
    | cons t₀ ts =>
      have h0 : (NitterClient.recordRateLimit none t₀).backoffDelay =
          min (30 * 2 ^ (NitterClient.recordRateLimit none t₀).count) 240 := by
        simp [NitterClient.recordRateLimit]
      have hshape := NitterClient.foldl_record_shape ts (NitterClient.recordRateLimit none t₀) h0
      have hta : NitterClient.trackerAfter (t₀ :: ts) =
          some (ts.foldl (fun acc now => NitterClient.recordRateLimit (some acc) now)
            (NitterClient.recordRateLimit none t₀)) := rfl
      rw [hta]
      exact NitterClient.record_step_mono _ now hshape

/-- Witness for C3 at a concrete pool, tracker and event sequence. -/
theorem claim3_witness :
    NitterClient.isInstanceInCooldown ((fun _ => none : NitterClient.Tracker) "a") 0 = false ∧
    (NitterClient.getBackoffDelay (NitterClient.trackerAfter [1, 2]) ≤
        (NitterClient.recordRateLimit (NitterClient.trackerAfter [1, 2]) 3).backoffDelay ∧
      (NitterClient.recordRateLimit (NitterClient.trackerAfter [1, 2]) 3).backoffDelay ≤
        240) :=
  ⟨claim3_rate_limit_cooldown_backoff.1 0 (fun _ => 200) ["a"] (fun _ => none) 0 "a" 0
      (by decide) (by decide),
    claim3_rate_limit_cooldown_backoff.2.2 [1, 2] 3⟩

namespace XAuthClient

/-- The page scan keeps exactly the prefix before the first stopping
tweet (aware time, or naive time before the cutoff) and reports whether
one was hit. -/
theorem scanTweets_spec (c : Int) :
    ∀ tws : List XTweet,
      scanTweets c tws =
        (tws.takeWhile (fun tw => !stopsScan c tw), tws.any (stopsScan c)) := by
  intro tws
  induction tws with
  | nil => simp [scanTweets]
  | cons tw rest ih =>
    cases h : tw.createdAt with
    | some tt =>
      cases tt with
      | aware t =>
        simp [scanTweets, h, ltCutoff, stopsScan, List.takeWhile_cons, List.any_cons]
      | naive t =>
        by_cases hlt : t < c
        · simp [scanTweets, h, hlt, ltCutoff, stopsScan, List.takeWhile_cons,
            List.any_cons]
        · simp [scanTweets, h, hlt, ltCutoff, stopsScan, List.takeWhile_cons,
            List.any_cons, ih]
    | none =>
      simp [scanTweets, h, stopsScan, List.takeWhile_cons, List.any_cons, ih]

/-- A `takeWhile` of the first summand is a `take` of the whole append. -/
theorem takeWhile_eq_take_append (p : XTweet → Bool) :
    ∀ (l l' : List XTweet), ∃ n, l.takeWhile p = (l ++ l').take n := by
  intro l l'
  induction l with
  | nil => exact ⟨0, by simp⟩
  | cons a l ih =>
    by_cases hp : p a
    · obtain ⟨n, hn⟩ := ih
      exact ⟨n + 1, by simp [List.takeWhile_cons, hp, hn]⟩
    · exact ⟨0, by simp [List.takeWhile_cons, hp]⟩

/-- Splitting a `take` across an append. -/
theorem take_append_length (l l' : List XTweet) (n : Nat) :
    (l ++ l').take (l.length + n) = l ++ l'.take n := by
  induction l with
  | nil => simp
  | cons a l ih => simpa [Nat.succ_add] using ih

/-- When no element fails the predicate, `takeWhile` keeps everything. -/
theorem takeWhile_of_not_any (p : XTweet → Bool) :
    ∀ l : List XTweet, l.any p = false → l.takeWhile (fun tw => !p tw) = l := by
  intro l hl
  induction l with
  | nil => simp
  | cons a l ih =>
    simp only [List.any_cons, Bool.or_eq_false_iff] at hl
    simp [List.takeWhile_cons, hl.1, ih hl.2]

/-- The fetch loop only ever appends a prefix of the concatenated page
stream to its accumulator. -/
theorem fetchGo_prefix (c : Int) :
    ∀ (fuel : Nat) (rs : List XPage) (acc : List XTweet),
      ∃ n, fetchGo c fuel rs acc = acc ++ ((rs.map XPage.tweets).flatten).take n := by
  intro fuel
  induction fuel with
  | zero => exact fun rs acc => ⟨0, by simp [fetchGo]⟩
  | succ m ih =>
    intro rs acc
    cases rs with
    | nil => exact ⟨0, by simp [fetchGo]⟩
    | cons p ps =>
      by_cases hok : p.ok
      · by_cases hemp : p.tweets.isEmpty
        · refine ⟨0, ?_⟩
          simp [fetchGo, hok, hemp]
        · by_cases hstop : p.tweets.any (stopsScan c)
          · obtain ⟨n, hn⟩ := takeWhile_eq_take_append (fun tw => !stopsScan c tw)
              p.tweets (ps.map XPage.tweets).flatten
            refine ⟨n, ?_⟩
            simp [fetchGo, hok, hemp, scanTweets_spec, hstop, hn]
          · have hstop' : p.tweets.any (stopsScan c) = false := by simpa using hstop
            by_cases hcur : p.cursor
            · obtain ⟨n, hn⟩ := ih ps (acc ++ p.tweets)
              refine ⟨p.tweets.length + n, ?_⟩
              simp [fetchGo, hok, hemp, scanTweets_spec, hstop', hcur,
                takeWhile_of_not_any _ _ hstop', hn, take_append_length]
            · refine ⟨p.tweets.length + 0, ?_⟩
              simp [fetchGo, hok, hemp, scanTweets_spec, hstop', hcur,
                takeWhile_of_not_any _ _ hstop', take_append_length]
      · exact ⟨0, by simp [fetchGo, hok]⟩

/-- Every tweet the fetch loop adds to a non-stopping accumulator is
itself non-stopping: its parsed time is absent, or naive and at or after
the cutoff — in particular no aware-time tweet and no naive out-of-window
tweet is ever returned. -/
theorem fetchGo_not_stopping (c : Int) :
    ∀ (fuel : Nat) (rs : List XPage) (acc : List XTweet),
      (∀ tw ∈ acc, stopsScan c tw = false) →
      ∀ tw ∈ fetchGo c fuel rs acc, stopsScan c tw = false := by
  intro fuel
  induction fuel with
  | zero => intro rs acc hacc; simpa [fetchGo] using hacc
  | succ m ih =>
    intro rs acc hacc
    cases rs with
    | nil => simpa [fetchGo] using hacc
    | cons p ps =>
      have hscan : ∀ tw ∈ (scanTweets c p.tweets).1, stopsScan c tw = false := by
        intro tw htw
        rw [scanTweets_spec] at htw
        have := List.mem_takeWhile_imp htw
        simpa using this
      have happ : ∀ tw ∈ acc ++ (scanTweets c p.tweets).1, stopsScan c tw = false := by
        intro tw htw
        rcases List.mem_append.mp htw with h | h
        · exact hacc tw h
        · exact hscan tw h
      by_cases hok : p.ok
      · by_cases hemp : p.tweets.isEmpty
        · intro tw htw; exact hacc tw (by simpa [fetchGo, hok, hemp] using htw)
        · by_cases hstop : (scanTweets c p.tweets).2
          · intro tw htw
            exact happ tw (by simpa [fetchGo, hok, hemp, hstop] using htw)
          · by_cases hcur : p.cursor
            · intro tw htw
              refine ih ps (acc ++ (scanTweets c p.tweets).1) happ tw ?_
              simpa [fetchGo, hok, hemp, hstop, hcur] using htw
            · intro tw htw
              exact happ tw (by simpa [fetchGo, hok, hemp, hstop, hcur] using htw)
      · intro tw htw; exact hacc tw (by simpa [fetchGo, hok] using htw)

end XAuthClient

/-- C4 counterexample: (a) one page holds a naive out-of-window tweet
followed by a naive in-window tweet (cutoff 50; times 0 and 100): the
claim says the out-of-window entry is skipped and the later in-window
post still returned, but the code returns from the scan at the first
out-of-window entry, so the result is empty and the in-window tweet is
dropped; (b) one page holds a single timezone-aware tweet at time 100,
inside the window: comparing it with the naive cutoff raises `TypeError`,
the catch-all `except` answers `return tweets`, and the result is again
empty although no timestamp fell outside the window. -/
theorem claim4_counterexample :
    XAuthClient.fetchUserTweets
        [⟨true, [⟨some (.naive 0), 0⟩, ⟨some (.naive 100), 1⟩], false⟩] 50 = [] ∧
    XAuthClient.fetchUserTweets [⟨true, [⟨some (.aware 100), 2⟩], false⟩] 50 = [] ∧
    (50 : Int) ≤ 100 :=
  ⟨by decide, by decide, by decide⟩

/-- C4 as amended: pagination never skips an individually out-of-range
entry — it halts fully at the *first* post at which the window check
stops: a post whose parsed timestamp is timezone-aware (the primary
Twitter format and offset-bearing ISO strings; comparing it with the
naive cutoff raises `TypeError`, which the catch-all `except` turns into
`return tweets`), or naive and strictly before the cutoff.  That post and
everything after it (in the same response and in later pages) is dropped.
Precisely: (1) the per-page scan keeps exactly the prefix before the
first stopping entry and reports whether one occurred, (2) the overall
result is a prefix of the concatenated page stream (so nothing after the
stop point reappears), and (3) every returned tweet is non-stopping: its
time is unparseable — such posts are kept and never stop the loop — or
naive and at or after the cutoff. -/
theorem claim4_stop_at_first_stopping_post :
    (∀ (c : Int) (tws : List XAuthClient.XTweet),
      XAuthClient.scanTweets c tws =
        (tws.takeWhile (fun tw => !XAuthClient.stopsScan c tw),
          tws.any (XAuthClient.stopsScan c))) ∧
    (∀ (rs : List XAuthClient.XPage) (c : Int),
      ∃ n, XAuthClient.fetchUserTweets rs c =
        ((rs.map XAuthClient.XPage.tweets).flatten).take n) ∧
    (∀ (rs : List XAuthClient.XPage) (c : Int),
      ∀ tw ∈ XAuthClient.fetchUserTweets rs c,
        XAuthClient.stopsScan c tw = false) := by
  refine ⟨fun c tws => XAuthClient.scanTweets_spec c tws, ?_, ?_⟩
  · intro rs c
    simpa [XAuthClient.fetchUserTweets] using XAuthClient.fetchGo_prefix c 5 rs []
  · intro rs c
    exact XAuthClient.fetchGo_not_stopping c 5 rs [] (by simp)

/-- Witness for C4 at a concrete page list: the returned singleton is a
prefix of the page stream, and the returned tweet (naive time 70, cutoff
50) is non-stopping. -/
theorem claim4_witness :
    (∃ n, XAuthClient.fetchUserTweets
        [⟨true, [⟨some (.naive 70), 3⟩, ⟨some (.naive 0), 4⟩], false⟩] 50 =
      (([⟨true, [⟨some (.naive 70), 3⟩, ⟨some (.naive 0), 4⟩], false⟩].map
        XAuthClient.XPage.tweets).flatten).take n) ∧
    XAuthClient.stopsScan 50 ⟨some (.naive 70), 3⟩ = false :=
  ⟨claim4_stop_at_first_stopping_post.2.1
      [⟨true, [⟨some (.naive 70), 3⟩, ⟨some (.naive 0), 4⟩], false⟩] 50,
    claim4_stop_at_first_stopping_post.2.2
      [⟨true, [⟨some (.naive 70), 3⟩, ⟨some (.naive 0), 4⟩], false⟩] 50
      ⟨some (.naive 70), 3⟩ (by decide)⟩

namespace XEndpoints

/-- Reduction of `do`-bind on a successful step (definitional; stated so
`simp` can chain through the parser's monadic code). -/
theorem bindOk {α β : Type} (a : α) (f : α → Except String β) :
    (do let x ← (Except.ok a : Except String α); f x) = f a := rfl

/-- Reduction of `<$>` on a successful step. -/
theorem mapOk {α β : Type} (a : α) (f : α → β) :
    (f <$> (Except.ok a : Except String α)) = Except.ok (f a) := rfl

/-- Reduction of `do`-bind on a failing step. -/
theorem bindErr {α β : Type} (e : String) (f : α → Except String β) :
    (do let x ← (Except.error e : Except String α); f x) = Except.error e := rfl

/-- Reduction of `<$>` on a failing step. -/
theorem mapErr {α β : Type} (e : String) (f : α → β) :
    (f <$> (Except.error e : Except String α)) = Except.error e := rfl

/-- Entries with a well-formed envelope are processed one by one:
extraction failures are skipped, successes accumulate in order, and the
loop never fails, whatever the inner contents are. -/
theorem processEntries_wrap (cs : List JValue) :
    ∀ tweets : List TweetData,
      processEntries (cs.map mkTweetEntry) tweets .null =
        .ok (tweets ++ (cs.map mkTweetEntry).filterMap extractTweetFromEntry, .null) := by
  induction cs with
  | nil => intro tweets; simp [processEntries]
  | cons c cs ih =>
    intro tweets
    cases hx : extractTweetFromEntry (.obj [("entryId", .str "tweet-x"), ("content", c)]) with
    | some td =>
      have h2 := ih (tweets ++ [td])
      rw [List.append_assoc] at h2
      simpa [processEntries, mkTweetEntry, pyGet, jlookup, pyStartsWith, bindOk, hx,
        List.filterMap_cons, show ("tweet-".data.isPrefixOf "tweet-x".data) = true by decide] using h2
    | none =>
      simpa [processEntries, mkTweetEntry, pyGet, jlookup, pyStartsWith, bindOk, hx,
        List.filterMap_cons, show ("tweet-".data.isPrefixOf "tweet-x".data) = true by decide]
        using ih tweets

/-- Reduction of the parser on a response with a well-formed skeleton:
everything except the entry loop succeeds definitionally. -/
theorem parse_wrapResponse (entries : List JValue) :
    parseUserTweetsResponse (wrapResponse entries) =
      match processEntries entries [] .null with
      | .ok tc => .ok ⟨tc.1, tc.2, !jIsNull tc.2⟩
      | .error e => .error ("Failed to parse user tweets response: " ++ e) := by
  cases h : processEntries entries [] JValue.null with
  | ok tc =>
    simp [parseUserTweetsResponse, parseBody, wrapResponse, pyGet, pyGet1, jlookup,
      pyIter, jIsStr, processInstructions, bindOk, mapOk, h]
  | error e =>
    simp [parseUserTweetsResponse, parseBody, wrapResponse, pyGet, pyGet1, jlookup,
      pyIter, jIsStr, processInstructions, bindOk, mapOk, bindErr, mapErr, h]

end XEndpoints

/-- C5 counterexample: the input `{"data": "boom"}` *is* a dictionary,
yet the timeline parser raises (the body's `AttributeError` from calling
`.get` on a string is re-raised as a `ValueError`), contradicting the
claim that the parser returns the successfully parsed entries without
raising for every input dictionary. -/
theorem claim5_counterexample :
    XEndpoints.parseUserTweetsResponse (.obj [("data", .str "boom")]) =
      .error "Failed to parse user tweets response: AttributeError" := by
  rfl

/-- C5 as amended: the *per-entry extractor* never lets an exception
escape — any failure of its body yields `None` — and entries it rejects
are skipped while parsing continues: a tweet entry whose extraction
yields `None` leaves the entry loop's state untouched and processing
proceeds with the remaining entries, and for every entry list with
well-formed envelopes and arbitrary (possibly malformed) inner contents
the parser succeeds and returns exactly the successfully extracted
entries in order.  (The parser itself, however, re-raises failures of the
walk outside the extractor as `ValueError`, per the counterexample.) -/
theorem claim5_extractor_never_raises_parser_skips :
    (∀ (entry : JValue) (e : String),
      XEndpoints.extractBody entry = .error e →
      XEndpoints.extractTweetFromEntry entry = none) ∧
    (∀ (c : JValue) (rest : List JValue) (tweets : List XEndpoints.TweetData)
        (cursor : JValue),
      XEndpoints.extractTweetFromEntry (XEndpoints.mkTweetEntry c) = none →
      XEndpoints.processEntries (XEndpoints.mkTweetEntry c :: rest) tweets cursor =
        XEndpoints.processEntries rest tweets cursor) ∧
    (∀ cs : List JValue,
      XEndpoints.parseUserTweetsResponse
          (XEndpoints.wrapResponse (cs.map XEndpoints.mkTweetEntry)) =
        .ok ⟨(cs.map XEndpoints.mkTweetEntry).filterMap XEndpoints.extractTweetFromEntry,
          .null, false⟩) := by
  refine ⟨?_, ?_, ?_⟩
  · intro entry e he
    simp [XEndpoints.extractTweetFromEntry, he]
  · intro c rest tweets cursor hx
    simp only [XEndpoints.mkTweetEntry] at hx
    simp [XEndpoints.processEntries, XEndpoints.mkTweetEntry, XEndpoints.pyGet,
      XEndpoints.jlookup, XEndpoints.pyStartsWith, XEndpoints.bindOk, hx,
      show ("tweet-".data.isPrefixOf "tweet-x".data) = true by decide]
  · intro cs
    rw [XEndpoints.parse_wrapResponse, XEndpoints.processEntries_wrap cs []]
    simp [XEndpoints.jIsNull]

/-- Witness for C5: a numeric entry makes the extractor body raise an
`AttributeError` and the extractor maps it to `None`; an entry whose
extraction failed is skipped by the entry loop with state unchanged; and
a singleton entry list with malformed content parses to the empty tweet
list. -/
theorem claim5_witness :
    XEndpoints.extractTweetFromEntry (.num 0) = none ∧
    XEndpoints.processEntries [XEndpoints.mkTweetEntry (.num 1)] [] .null =
      XEndpoints.processEntries [] [] .null ∧
    XEndpoints.parseUserTweetsResponse
        (XEndpoints.wrapResponse ([JValue.num 1].map XEndpoints.mkTweetEntry)) =
      .ok ⟨([JValue.num 1].map XEndpoints.mkTweetEntry).filterMap
        XEndpoints.extractTweetFromEntry, .null, false⟩ :=
  ⟨claim5_extractor_never_raises_parser_skips.1 (.num 0) "AttributeError" rfl,
    claim5_extractor_never_raises_parser_skips.2.1 (.num 1) [] [] .null rfl,
    claim5_extractor_never_raises_parser_skips.2.2 [JValue.num 1]⟩

/-- C6: an unrecognized subtask or the explicit deny subtask terminates
the login flow as a fatal failure, with no further flow-task request
issued for that flow (so the flow is never re-entered in this run).
(a) On an unrecognized subtask the loop raises `Unknown subtask: …`
without issuing a single further request, whatever the remaining server
script would answer.  (b) A response carrying `DenyLoginSubtask` is
classified as the `Login denied by Twitter` error.  (c) An error status
terminates the loop immediately with zero further requests.  (d)/(e): at
the whole-`login_user` level, a deny response or an unrecognized subtask
in the first server answer ends the flow as `fatal` after exactly the one
request already issued. -/
theorem claim6_unknown_or_deny_subtask_fatal :
    (∀ (cfg : XAuthFlow.LoginCfg) (fuel : Nat) (script : List XAuthFlow.ServerResponse)
        (ft sid : String), sid ∉ XAuthFlow.recognizedSubtasks →
        XAuthFlow.loginLoop cfg (fuel + 1) script (.cont ft sid) =
          (.raised ("Unknown subtask: " ++ sid), 0)) ∧
    (∀ (resp : XAuthFlow.ServerResponse) (ft : String),
        resp.ok = true → resp.errors = [] → resp.flowToken = some ft →
        resp.subtasks.head? = some "DenyLoginSubtask" →
        XAuthFlow.executeFlowTask resp = .error "Login denied by Twitter") ∧
    (∀ (cfg : XAuthFlow.LoginCfg) (fuel : Nat) (script : List XAuthFlow.ServerResponse)
        (e : String),
        XAuthFlow.loginLoop cfg fuel script (.error e) = (.finished (.error e), 0)) ∧
    (∀ (cfg : XAuthFlow.LoginCfg) (r : XAuthFlow.ServerResponse)
        (rest : List XAuthFlow.ServerResponse) (ft : String),
        r.ok = true → r.errors = [] → r.flowToken = some ft →
        r.subtasks.head? = some "DenyLoginSubtask" →
        XAuthFlow.loginUser cfg (r :: rest) =
          (.fatal "Login failed: Login denied by Twitter", 1)) ∧
    (∀ (cfg : XAuthFlow.LoginCfg) (r : XAuthFlow.ServerResponse)
        (rest : List XAuthFlow.ServerResponse) (ft sid : String),
        XAuthFlow.executeFlowTask r = .cont ft sid →
        sid ∉ XAuthFlow.recognizedSubtasks →
        XAuthFlow.loginUser cfg (r :: rest) =
          (.fatal ("Unknown subtask: " ++ sid), 1)) := by
  have hloop : ∀ (cfg : XAuthFlow.LoginCfg) (fuel : Nat)
      (script : List XAuthFlow.ServerResponse) (ft sid : String),
      sid ∉ XAuthFlow.recognizedSubtasks →
      XAuthFlow.loginLoop cfg (fuel + 1) script (.cont ft sid) =
        (.raised ("Unknown subtask: " ++ sid), 0) := by
    intro cfg fuel script ft sid hsid
    have h1 : sid ≠ "LoginTwoFactorAuthChallenge" := by
      intro h; exact hsid (by simp [XAuthFlow.recognizedSubtasks, h])
    have h2 : sid ≠ "LoginAcid" := by
      intro h; exact hsid (by simp [XAuthFlow.recognizedSubtasks, h])
    simp [XAuthFlow.loginLoop, h1, h2, hsid]
  have hdeny : ∀ (resp : XAuthFlow.ServerResponse) (ft : String),
      resp.ok = true → resp.errors = [] → resp.flowToken = some ft →
      resp.subtasks.head? = some "DenyLoginSubtask" →
      XAuthFlow.executeFlowTask resp = .error "Login denied by Twitter" := by
    intro resp ft hok herr hft hhead
    simp [XAuthFlow.executeFlowTask, hok, herr, hft, hhead]
  have herrstop : ∀ (cfg : XAuthFlow.LoginCfg) (fuel : Nat)
      (script : List XAuthFlow.ServerResponse) (e : String),
      XAuthFlow.loginLoop cfg fuel script (.error e) = (.finished (.error e), 0) := by
    intro cfg fuel script e
    cases fuel <;> rfl
  refine ⟨hloop, hdeny, herrstop, ?_, ?_⟩
  · intro cfg r rest ft hok herr hft hhead
    simp [XAuthFlow.loginUser, XAuthFlow.takeResp, hdeny r ft hok herr hft hhead, herrstop]
  · intro cfg r rest ft sid hcont hsid
    have : rest.length + 2 = (rest.length + 1) + 1 := rfl
    simp [XAuthFlow.loginUser, XAuthFlow.takeResp, hcont, this,
      hloop cfg (rest.length + 1) rest ft sid hsid]

/-- Witness for C6: a deny response and an unrecognized subtask both end
a concrete flow fatally after the single request already made. -/
theorem claim6_witness :
    XAuthFlow.loginUser ⟨none, none⟩ [⟨true, [], some "ft", ["DenyLoginSubtask"]⟩] =
      (.fatal "Login failed: Login denied by Twitter", 1) ∧
    XAuthFlow.loginUser ⟨none, none⟩
        [⟨true, [], some "ft", ["SomethingNew"]⟩, ⟨true, [], some "g", []⟩] =
      (.fatal ("Unknown subtask: " ++ "SomethingNew"), 1) :=
  ⟨claim6_unknown_or_deny_subtask_fatal.2.2.2.1 ⟨none, none⟩
      ⟨true, [], some "ft", ["DenyLoginSubtask"]⟩ [] "ft" rfl rfl rfl rfl,
    claim6_unknown_or_deny_subtask_fatal.2.2.2.2 ⟨none, none⟩
      ⟨true, [], some "ft", ["SomethingNew"]⟩ [⟨true, [], some "g", []⟩] "ft"
      "SomethingNew" (by decide) (by decide)⟩

/-- C8: the thread id is a pure function of (platform, author, anchor
timestamp string, member count): two groups agreeing on the first post's
platform, author and post time and on length get identical ids, whatever
every other field of every member is; and equal inputs give equal ids. -/
theorem claim8_thread_id_pure_function :
    (∀ (p q : Post) (t₁ t₂ : List Post),
      p.platform = q.platform → p.author_username = q.author_username →
      p.post_time = q.post_time → t₁.length = t₂.length →
      AIClient.generateThreadId (p :: t₁) = AIClient.generateThreadId (q :: t₂)) ∧
    (∀ g₁ g₂ : List Post, g₁ = g₂ →
      AIClient.generateThreadId g₁ = AIClient.generateThreadId g₂) := by
  constructor
  · intro p q t₁ t₂ hp ha ht hl
    simp [AIClient.generateThreadId, hp, ha, ht, hl]
  · intro g₁ g₂ h
    rw [h]

/-- Witness for C8: two singleton groups differing in id and content but
agreeing on platform, author, time and size get the same thread id. -/
theorem claim8_witness :
    AIClient.generateThreadId [AIClient.scenA1] =
      AIClient.generateThreadId
        [{ AIClient.scenA1 with post_id := "99", original_content := "other" }] :=
  claim8_thread_id_pure_function.1 _ _ _ _ rfl rfl rfl rfl

namespace PostCollector

/-- Case analysis of one fallback-helper call: either the client is not
even asked for posts (gate or availability fails) and nothing is traced,
or exactly that client is traced and the posts are its fetch result
(empty on a raised exception). -/
theorem tryClientFallback_trace (t : ClientType) (w : TwWorld) :
    ((tryClientFallback t w).2 = [] ∧ (tryClientFallback t w).1 = []) ∨
      (tryClientFallback t w).2 = [t] := by
  unfold tryClientFallback
  by_cases hc : configured t w
  · by_cases ha : (clientOf t w).avail
    · cases hf : (clientOf t w).fetch <;> simp [hc, ha, hf]
    · simp [hc, ha]
  · simp [hc]

/-- When the helper produced posts, they are the traced client's
successful fetch result. -/
theorem tryClientFallback_posts (t : ClientType) (w : TwWorld)
    (h : (tryClientFallback t w).1 ≠ []) :
    (tryClientFallback t w).2 = [t] ∧
      (clientOf t w).fetch = .ok (tryClientFallback t w).1 := by
  unfold tryClientFallback at *
  by_cases hc : configured t w
  · by_cases ha : (clientOf t w).avail
    · cases hf : (clientOf t w).fetch <;> simp_all
    · simp_all
  · simp_all

/-- When the helper produced no posts, no client it traced succeeded. -/
theorem tryClientFallback_empty (t : ClientType) (w : TwWorld)
    (h : (tryClientFallback t w).1 = []) :
    ∀ t' ∈ (tryClientFallback t w).2, fetchSucceeds t' w = false := by
  intro t' ht'
  unfold tryClientFallback at *
  by_cases hc : configured t w
  · by_cases ha : (clientOf t w).avail
    · cases hf : (clientOf t w).fetch with
      | ok ps =>
        simp only [hc, ha, hf, if_true] at ht' h
        simp only [List.mem_singleton] at ht'
        subst ht'
        simp [fetchSucceeds, hf, h]
      | error e =>
        simp only [hc, ha, hf, if_true] at ht'
        simp only [List.mem_singleton] at ht'
        subst ht'
        simp [fetchSucceeds, hf]
    · simp_all
  · simp_all

/-- Success provenance for the priority-order loop: non-empty posts come
from the last traced client's fetch. -/
theorem fallbackLoop_posts (w : TwWorld) :
    ∀ pr : List ClientType, (fallbackLoop w pr).1 ≠ [] →
      ∃ t, (fallbackLoop w pr).2.getLast? = some t ∧
        (clientOf t w).fetch = .ok (fallbackLoop w pr).1 := by
  intro pr
  induction pr with
  | nil => simp [fallbackLoop]
  | cons t pr ih =>
    intro h
    by_cases hr : (tryClientFallback t w).1.isEmpty
    · simp only [fallbackLoop, hr, if_true] at h ⊢
      obtain ⟨t', ht', hf⟩ := ih h
      have hne : (fallbackLoop w pr).2 ≠ [] := by
        intro hnil
        rw [hnil] at ht'
        simp at ht'
      exact ⟨t', by rw [List.getLast?_append_of_ne_nil _ hne]; exact ht', hf⟩
    · have hr' : (tryClientFallback t w).1.isEmpty = false := by simpa using hr
      simp only [fallbackLoop, hr', Bool.false_eq_true, if_false] at h ⊢
      have hne : (tryClientFallback t w).1 ≠ [] := by
        simpa using hr
      obtain ⟨htr, hf⟩ := tryClientFallback_posts t w hne
      exact ⟨t, by rw [htr]; rfl, hf⟩

/-- Every client the loop traced before its last one failed to produce
posts. -/
theorem fallbackLoop_dropLast (w : TwWorld) :
    ∀ pr : List ClientType, ∀ t' ∈ (fallbackLoop w pr).2.dropLast,
      fetchSucceeds t' w = false := by
  intro pr
  induction pr with
  | nil => simp [fallbackLoop]
  | cons t pr ih =>
    intro t' ht'
    by_cases hr : (tryClientFallback t w).1.isEmpty
    · have hre : (tryClientFallback t w).1 = [] := by simpa using hr
      simp only [fallbackLoop, hr, if_true] at ht'
      by_cases hrest : (fallbackLoop w pr).2 = []
      · rw [hrest, List.append_nil] at ht'
        rcases tryClientFallback_trace t w with ⟨h1, _⟩ | h1 <;> rw [h1] at ht'
        · simp at ht'
        · simp at ht'
      · rw [List.dropLast_append_of_ne_nil _ hrest] at ht'
        rcases List.mem_append.mp ht' with hm | hm
        · exact tryClientFallback_empty t w hre t' hm
        · exact ih t' hm
    · have hr' : (tryClientFallback t w).1.isEmpty = false := by simpa using hr
      simp only [fallbackLoop, hr', Bool.false_eq_true, if_false] at ht'
      have hne : (tryClientFallback t w).1 ≠ [] := by simpa using hr
      rw [(tryClientFallback_posts t w hne).1] at ht'
      simp at ht'

/-- The loop's trace respects the configured priority order. -/
theorem fallbackLoop_sublist (w : TwWorld) :
    ∀ pr : List ClientType, (fallbackLoop w pr).2.Sublist pr := by
  intro pr
  induction pr with
  | nil => simp [fallbackLoop]
  | cons t pr ih =>
    by_cases hr : (tryClientFallback t w).1.isEmpty
    · simp only [fallbackLoop, hr, if_true]
      rcases tryClientFallback_trace t w with ⟨h1, _⟩ | h1 <;> rw [h1]
      · exact (ih).cons t
      · exact (ih).cons₂ t
    · have hr' : (tryClientFallback t w).1.isEmpty = false := by simpa using hr
      simp only [fallbackLoop, hr', Bool.false_eq_true, if_false]
      have hne : (tryClientFallback t w).1 ≠ [] := by simpa using hr
      rw [(tryClientFallback_posts t w hne).1]
      exact (List.nil_sublist pr).cons₂ t

end PostCollector

namespace PostCollector

/-- Provenance of a non-empty acquisition result: it is the successful
fetch of the last client in the invocation trace. -/
theorem collect_posts_ok (priority : List ClientType) (w : TwWorld)
    (h : (collectTwitterPostsWithFallback priority w).1 ≠ []) :
    ∃ t, (collectTwitterPostsWithFallback priority w).2.getLast? = some t ∧
      (clientOf t w).fetch = .ok (collectTwitterPostsWithFallback priority w).1 := by
  unfold collectTwitterPostsWithFallback at *
  cases hinit : initializeTwitterClient priority w with
  | none =>
    simp only [hinit] at h ⊢
    exact fallbackLoop_posts w priority h
  | some p =>
    simp only [hinit] at h ⊢
    cases hf : (clientOf p w).fetch with
    | ok ps =>
      by_cases hps : ps.isEmpty
      · simp only [hf, hps, if_true] at h ⊢
        have hne : (tryClientFallback (otherClient p) w).1 ≠ [] := by
          simpa [tryFallbackClients] using h
        obtain ⟨htr, hfo⟩ := tryClientFallback_posts (otherClient p) w hne
        refine ⟨otherClient p, ?_, by simpa [tryFallbackClients] using hfo⟩
        simp [tryFallbackClients, htr]
      · have hps' : ps.isEmpty = false := by simpa using hps
        simp only [hf, hps', Bool.false_eq_true, if_false] at h ⊢
        exact ⟨p, rfl, hf⟩
    | error e =>
      simp only [hf] at h ⊢
      have hne : (tryClientFallback (otherClient p) w).1 ≠ [] := by
        simpa [tryFallbackClients] using h
      obtain ⟨htr, hfo⟩ := tryClientFallback_posts (otherClient p) w hne
      refine ⟨otherClient p, ?_, by simpa [tryFallbackClients] using hfo⟩
      simp [tryFallbackClients, htr]

/-- Every client invoked before the last one in the trace failed to
produce posts (the orchestration halts at the first success). -/
theorem collect_dropLast (priority : List ClientType) (w : TwWorld) :
    ∀ t ∈ (collectTwitterPostsWithFallback priority w).2.dropLast,
      fetchSucceeds t w = false := by
  intro t ht
  unfold collectTwitterPostsWithFallback at ht
  cases hinit : initializeTwitterClient priority w with
  | none =>
    simp only [hinit] at ht
    exact fallbackLoop_dropLast w priority t ht
  | some p =>
    simp only [hinit] at ht
    have htf : tryFallbackClients (some p) priority w = tryClientFallback (otherClient p) w :=
      rfl
    cases hf : (clientOf p w).fetch with
    | ok ps =>
      by_cases hps : ps.isEmpty
      · simp only [hf, hps, if_true, htf] at ht
        rcases tryClientFallback_trace (otherClient p) w with ⟨h1, _⟩ | h1
        · rw [h1] at ht; simp at ht
        · rw [h1] at ht
          simp [List.dropLast] at ht
          subst ht
          simp [fetchSucceeds, hf, List.isEmpty_iff.mp hps]
      · have hps' : ps.isEmpty = false := by simpa using hps
        simp only [hf, hps', Bool.false_eq_true, if_false] at ht
        simp at ht
    | error e =>
      simp only [hf, htf] at ht
      rcases tryClientFallback_trace (otherClient p) w with ⟨h1, _⟩ | h1
      · rw [h1] at ht; simp at ht
      · rw [h1] at ht
        simp [List.dropLast] at ht
        subst ht
        simp [fetchSucceeds, hf]

/-- Shape of the invocation trace: with a primary client it is that
client possibly followed by the *other* type (irrespective of the
configured order); with no primary it follows the configured order. -/
theorem collect_trace_shape (priority : List ClientType) (w : TwWorld) :
    match initializeTwitterClient priority w with
    | some p =>
        (collectTwitterPostsWithFallback priority w).2 = [p] ∨
        (collectTwitterPostsWithFallback priority w).2 = [p, otherClient p]
    | none => (collectTwitterPostsWithFallback priority w).2.Sublist priority := by
  cases hinit : initializeTwitterClient priority w with
  | none =>
    simp only [collectTwitterPostsWithFallback, hinit]
    exact fallbackLoop_sublist w priority
  | some p =>
    simp only [collectTwitterPostsWithFallback, hinit]
    cases hf : (clientOf p w).fetch with
    | ok ps =>
      by_cases hps : ps.isEmpty
      · simp only [hps, if_true]
        rcases tryClientFallback_trace (otherClient p) w with ⟨h1, _⟩ | h1 <;>
          simp [tryFallbackClients, h1]
      · have hps' : ps.isEmpty = false := by simpa using hps
        simp [hps', Bool.false_eq_true]
    | error e =>
      rcases tryClientFallback_trace (otherClient p) w with ⟨h1, _⟩ | h1 <;>
        simp [tryFallbackClients, h1]

end PostCollector

/-- C1 counterexample: with the configured priority order `[agent]` and
a world where the agent client is available but returns zero posts while
nitter would return one post, the code invokes nitter as a fallback even
though nitter is not in the configured order at all — acquisition does
not invoke "the clients strictly in that configured order". -/
theorem claim1_counterexample :
    PostCollector.collectTwitterPostsWithFallback [.agent] PostCollector.cexWorld =
      ([7], [.agent, .nitter]) ∧
    PostCollector.ClientType.nitter ∉ [PostCollector.ClientType.agent] := by
  constructor
  · rfl
  · decide

/-- C1 as amended: acquisition halts at the first client returning a
non-empty post list and never invokes a further client after that
success; a client yielding zero posts (or raising) falls over to the
next; but the *order* is: the primary client — the first type in the
configured order that initialises — followed, on failure, by the other
client type regardless of the configured order; only when no primary
exists are clients tried in the configured order. -/
theorem claim1_fallback_halts_at_success :
    ∀ (priority : List PostCollector.ClientType) (w : PostCollector.TwWorld),
      ((PostCollector.collectTwitterPostsWithFallback priority w).1 ≠ [] →
        ∃ t, (PostCollector.collectTwitterPostsWithFallback priority w).2.getLast? =
            some t ∧
          (PostCollector.clientOf t w).fetch =
            .ok (PostCollector.collectTwitterPostsWithFallback priority w).1) ∧
      (∀ t ∈ (PostCollector.collectTwitterPostsWithFallback priority w).2.dropLast,
        PostCollector.fetchSucceeds t w = false) ∧
      (match PostCollector.initializeTwitterClient priority w with
       | some p =>
           (PostCollector.collectTwitterPostsWithFallback priority w).2 = [p] ∨
           (PostCollector.collectTwitterPostsWithFallback priority w).2 =
             [p, PostCollector.otherClient p]
       | none =>
           (PostCollector.collectTwitterPostsWithFallback priority w).2.Sublist
             priority) :=
  fun priority w =>
    ⟨PostCollector.collect_posts_ok priority w,
      PostCollector.collect_dropLast priority w,
      PostCollector.collect_trace_shape priority w⟩

/-- Witness for C1: at priority `[nitter]` in the counterexample world,
the non-empty result is the last traced client's successful fetch. -/
theorem claim1_witness :
    ∃ t, (PostCollector.collectTwitterPostsWithFallback [.nitter]
        PostCollector.cexWorld).2.getLast? = some t ∧
      (PostCollector.clientOf t PostCollector.cexWorld).fetch =
        .ok (PostCollector.collectTwitterPostsWithFallback [.nitter]
          PostCollector.cexWorld).1 :=
  (claim1_fallback_halts_at_success [.nitter] PostCollector.cexWorld).1 (by decide)

/-- C2 counterexample: two all-fail worlds with *different* ordered
failure reasons give the *same* bare return value `[]` — so the return
value of per-account collection does not carry the ordered list of
failure reasons (they are only logged). -/
theorem claim2_counterexample :
    PostCollector.collectPostsForAccount [.nitter, .agent] PostCollector.failWorldA = [] ∧
    PostCollector.collectPostsForAccount [.nitter, .agent] PostCollector.failWorldB = [] ∧
    PostCollector.failureReasons [.nitter, .agent] PostCollector.failWorldA ≠
      PostCollector.failureReasons [.nitter, .agent] PostCollector.failWorldB := by
  refine ⟨rfl, rfl, by decide⟩

/-- C2 as amended: when every client fails or yields nothing, per-account
collection returns the empty post list — and, the embedding being a total
function in which every raising client call (`Except.error`) is caught
inside the fallback helpers, no exception propagates to the caller.  The
ordered failure reasons are logged, not returned (see the
counterexample). -/
theorem claim2_exhausted_returns_empty :
    ∀ (priority : List PostCollector.ClientType) (w : PostCollector.TwWorld),
      PostCollector.fetchSucceeds .nitter w = false →
      PostCollector.fetchSucceeds .agent w = false →
      PostCollector.collectPostsForAccount priority w = [] := by
  intro priority w hn ha
  by_contra h
  obtain ⟨t, _, hf⟩ := PostCollector.collect_posts_ok priority w h
  have hsucc : PostCollector.fetchSucceeds t w = true := by
    simp only [PostCollector.fetchSucceeds, hf]
    simpa [PostCollector.collectPostsForAccount] using h
  cases t
  · rw [hn] at hsucc; exact Bool.false_ne_true hsucc
  · rw [ha] at hsucc; exact Bool.false_ne_true hsucc

/-- Witness for C2: in a concrete all-fail world collection returns
`[]`. -/
theorem claim2_witness :
    PostCollector.collectPostsForAccount [.nitter, .agent] PostCollector.failWorldA = [] :=
  claim2_exhausted_returns_empty [.nitter, .agent] PostCollector.failWorldA
    (by decide) (by decide)

namespace AIClient

theorem timeKeyLE_total (a b : Option Int) : timeKeyLE a b = true ∨ timeKeyLE b a = true := by
  cases a <;> cases b <;> simp [timeKeyLE] <;> omega

theorem timeKeyLE_trans {a b c : Option Int} (h1 : timeKeyLE a b = true)
    (h2 : timeKeyLE b c = true) : timeKeyLE a c = true := by
  cases a <;> cases b <;> cases c <;> simp_all [timeKeyLE] <;> omega

instance : IsTotal Post keyLE := by
  constructor
  intro p q
  unfold keyLE
  rcases lt_trichotomy p.author_username.data q.author_username.data with h | h | h
  · left; simp [h]
  · have he : p.author_username = q.author_username := String.ext h
    rcases timeKeyLE_total (postMicros p.post_time) (postMicros q.post_time) with ht | ht
    · left; simp [he, ht]
    · right; simp [he.symm, ht]
  · right; simp [h]

instance : IsTrans Post keyLE := by
  constructor
  intro p q s hpq hqs
  unfold keyLE at *
  simp only [Bool.or_eq_true, Bool.and_eq_true, decide_eq_true_eq, beq_iff_eq] at *
  rcases hpq with h1 | ⟨h1, t1⟩ <;> rcases hqs with h2 | ⟨h2, t2⟩
  · exact Or.inl (lt_trans h1 h2)
  · exact Or.inl (h2 ▸ h1)
  · exact Or.inl (h1 ▸ h2)
  · exact Or.inr ⟨h1.trans h2, timeKeyLE_trans t1 t2⟩

theorem keyLE_refl (p : Post) : keyLE p p := by
  unfold keyLE
  have : timeKeyLE (postMicros p.post_time) (postMicros p.post_time) = true := by
    cases postMicros p.post_time <;> simp [timeKeyLE]
  simp [this]

instance : IsTotal Post mergeLE := by
  constructor
  intro p q
  unfold mergeLE
  rcases Int.le_total (mergeKey p) (mergeKey q) with h | h
  · left; simp [h]
  · right; simp [h]

instance : IsTrans Post mergeLE := by
  constructor
  intro p q s hpq hqs
  unfold mergeLE at *
  simp only [decide_eq_true_eq] at *
  omega

/-- `keyLE` only looks at the author and time-string fields. -/
theorem keyLE_ext {p p' q q' : Post}
    (ha : p.author_username = p'.author_username) (ht : p.post_time = p'.post_time)
    (hb : q.author_username = q'.author_username) (hs : q.post_time = q'.post_time)
    (h : keyLE p q) : keyLE p' q' := by
  unfold keyLE at *
  rw [← ha, ← ht, ← hb, ← hs]
  exact h

/-- `sameThread` only looks at the author and time-string fields. -/
theorem sameThread_ext (thrUs : Nat) {p p' q q' : Post}
    (ha : p.author_username = p'.author_username) (ht : p.post_time = p'.post_time)
    (hb : q.author_username = q'.author_username) (hs : q.post_time = q'.post_time) :
    sameThread thrUs p' q' = sameThread thrUs p q := by
  unfold sameThread
  rw [ha, ht, hb, hs]

/-- The two halves of `spanChain` reassemble the input. -/
theorem spanChain_append (r : Post → Post → Bool) :
    ∀ (a : Post) (l : List Post), (spanChain r a l).1 ++ (spanChain r a l).2 = l := by
  intro a l
  induction l generalizing a with
  | nil => simp [spanChain]
  | cons b l ih =>
    by_cases h : r a b
    · simpa [spanChain, h] using ih b
    · simp [spanChain, h]

/-- The head segment of `spanChain` is chained under `r`. -/
theorem spanChain_chain (r : Post → Post → Bool) :
    ∀ (a : Post) (l : List Post),
      List.Chain (fun x y => r x y = true) a (spanChain r a l).1 := by
  intro a l
  induction l generalizing a with
  | nil => simp [spanChain]
  | cons b l ih =>
    by_cases h : r a b
    · simp only [spanChain, h, if_true]
      exact List.Chain.cons h (ih b)
    · simp [spanChain, h]

/-- Where `spanChain` stops, the chain relation fails: the last element
of the spanned run is unrelated to the head of the remainder. -/
theorem spanChain_boundary (r : Post → Post → Bool) :
    ∀ (a : Post) (l : List Post) (b : Post) (rest : List Post),
      (spanChain r a l).2 = b :: rest →
      ∃ x, (a :: (spanChain r a l).1).getLast? = some x ∧ r x b = false := by
  intro a l
  induction l generalizing a with
  | nil => intro b rest h; simp [spanChain] at h
  | cons c l ih =>
    intro b rest h
    by_cases hr : r a c
    · simp only [spanChain, hr, if_true] at h ⊢
      obtain ⟨x, hx, hxb⟩ := ih c b rest h
      exact ⟨x, by rw [List.getLast?_cons_cons]; exact hx, hxb⟩
    · simp only [spanChain, hr, if_false] at h ⊢
      obtain ⟨rfl, -⟩ := List.cons.injEq .. ▸ h
      exact ⟨a, rfl, by simpa using hr⟩

end AIClient

namespace AIClient

theorem chunkBy_nil (r : Post → Post → Bool) : chunkBy r [] = [] := by
  simp [chunkBy]

theorem chunkBy_cons (r : Post → Post → Bool) (a : Post) (l : List Post) :
    chunkBy r (a :: l) =
      (a :: (spanChain r a l).1) :: chunkBy r (spanChain r a l).2 := by
  rw [chunkBy]

theorem chunkBy_flatten_le (r : Post → Post → Bool) :
    ∀ (n : Nat) (l : List Post), l.length ≤ n → (chunkBy r l).flatten = l := by
  intro n
  induction n with
  | zero =>
    intro l hl
    have : l = [] := List.eq_nil_of_length_eq_zero (Nat.le_zero.mp hl)
    rw [this, chunkBy_nil]
    rfl
  | succ m ih =>
    intro l hl
    cases l with
    | nil => rw [chunkBy_nil]; rfl
    | cons a l =>
      rw [chunkBy_cons]
      simp only [List.flatten_cons]
      rw [ih (spanChain r a l).2
        (le_trans (spanChain_snd_length r a l) (Nat.le_of_succ_le_succ hl))]
      rw [List.cons_append, spanChain_append]

/-- The chunks reassemble the input list. -/
theorem chunkBy_flatten (r : Post → Post → Bool) (l : List Post) :
    (chunkBy r l).flatten = l :=
  chunkBy_flatten_le r l.length l le_rfl

/-- Chunk members are input members. -/
theorem chunkBy_subset (r : Post → Post → Bool) {l : List Post} {g : List Post}
    (hg : g ∈ chunkBy r l) : ∀ x ∈ g, x ∈ l := by
  intro x hx
  rw [← chunkBy_flatten r l]
  exact List.mem_flatten.mpr ⟨g, hg, hx⟩

/-- Each chunk is a sublist of the input. -/
theorem chunkBy_sublist (r : Post → Post → Bool) {l : List Post} {g : List Post}
    (hg : g ∈ chunkBy r l) : g.Sublist l := by
  rw [← chunkBy_flatten r l]
  exact List.sublist_flatten_of_mem hg

theorem chunkBy_shape_le (r : Post → Post → Bool) :
    ∀ (n : Nat) (l : List Post), l.length ≤ n → ∀ g ∈ chunkBy r l,
      ∃ a t, g = a :: t ∧ List.Chain (fun x y => r x y = true) a t := by
  intro n
  induction n with
  | zero =>
    intro l hl
    rw [List.eq_nil_of_length_eq_zero (Nat.le_zero.mp hl), chunkBy_nil]
    simp
  | succ m ih =>
    intro l hl g hg
    cases l with
    | nil => rw [chunkBy_nil] at hg; simp at hg
    | cons a l =>
      rw [chunkBy_cons] at hg
      rcases List.mem_cons.mp hg with rfl | hg'
      · exact ⟨a, (spanChain r a l).1, rfl, spanChain_chain r a l⟩
      · exact ih (spanChain r a l).2
          (le_trans (spanChain_snd_length r a l) (Nat.le_of_succ_le_succ hl)) g hg'

/-- Every chunk is non-empty and internally chained under `r`. -/
theorem chunkBy_shape (r : Post → Post → Bool) {l : List Post} {g : List Post}
    (hg : g ∈ chunkBy r l) :
    ∃ a t, g = a :: t ∧ List.Chain (fun x y => r x y = true) a t :=
  chunkBy_shape_le r l.length l le_rfl g hg

theorem chunkBy_boundary_le (r : Post → Post → Bool) :
    ∀ (n : Nat) (l : List Post), l.length ≤ n →
      List.Chain' (fun g h => ∃ x, g.getLast? = some x ∧
        ∃ y, h.head? = some y ∧ r x y = false) (chunkBy r l) := by
  intro n
  induction n with
  | zero =>
    intro l hl
    rw [List.eq_nil_of_length_eq_zero (Nat.le_zero.mp hl), chunkBy_nil]
    exact List.chain'_nil
  | succ m ih =>
    intro l hl
    cases l with
    | nil => rw [chunkBy_nil]; exact List.chain'_nil
    | cons a l =>
      rw [chunkBy_cons]
      refine List.chain'_cons'.mpr ⟨?_, ih (spanChain r a l).2
        (le_trans (spanChain_snd_length r a l) (Nat.le_of_succ_le_succ hl))⟩
      intro h' hh'
      cases hs2 : (spanChain r a l).2 with
      | nil => rw [hs2, chunkBy_nil] at hh'; simp at hh'
      | cons b rest =>
        rw [hs2, chunkBy_cons] at hh'
        simp only [List.head?_cons, Option.mem_def, Option.some.injEq] at hh'
        obtain ⟨x, hx, hxb⟩ := spanChain_boundary r a l b rest hs2
        exact ⟨x, hx, b, by rw [← hh']; rfl, hxb⟩

/-- Between two adjacent chunks the chaining relation fails (the last
element of the earlier chunk is unrelated to the head of the later). -/
theorem chunkBy_boundary (r : Post → Post → Bool) (l : List Post) :
    List.Chain' (fun g h => ∃ x, g.getLast? = some x ∧
      ∃ y, h.head? = some y ∧ r x y = false) (chunkBy r l) :=
  chunkBy_boundary_le r l.length l le_rfl

theorem chunkBy_cross_le (r : Post → Post → Bool) :
    ∀ (n : Nat) (l : List Post), l.length ≤ n → List.Pairwise keyLE l →
      List.Chain' (fun g h => ∀ u ∈ g, ∀ v ∈ h, keyLE u v) (chunkBy r l) := by
  intro n
  induction n with
  | zero =>
    intro l hl _
    rw [List.eq_nil_of_length_eq_zero (Nat.le_zero.mp hl), chunkBy_nil]
    exact List.chain'_nil
  | succ m ih =>
    intro l hl hp
    cases l with
    | nil => rw [chunkBy_nil]; exact List.chain'_nil
    | cons a l =>
      rw [chunkBy_cons]
      rw [List.pairwise_cons] at hp
      have hsplit : List.Pairwise keyLE ((spanChain r a l).1 ++ (spanChain r a l).2) := by
        rw [spanChain_append]; exact hp.2
      rw [List.pairwise_append] at hsplit
      refine List.chain'_cons'.mpr ⟨?_, ih (spanChain r a l).2
        (le_trans (spanChain_snd_length r a l) (Nat.le_of_succ_le_succ hl)) hsplit.2.1⟩
      intro h' hh'
      have hh'mem : h' ∈ chunkBy r (spanChain r a l).2 := by
        cases hcb : chunkBy r (spanChain r a l).2 with
        | nil => rw [hcb] at hh'; simp at hh'
        | cons c cs =>
          rw [hcb] at hh'
          simp only [List.head?_cons, Option.mem_def, Option.some.injEq] at hh'
          exact hh' ▸ List.mem_cons_self _ _
      intro u hu v hv
      have hv2 : v ∈ (spanChain r a l).2 := chunkBy_subset r hh'mem v hv
      have hvl : v ∈ l := by
        rw [← spanChain_append r a l]
        exact List.mem_append.mpr (Or.inr hv2)
      rcases List.mem_cons.mp hu with rfl | hu'
      · exact hp.1 v hvl
      · exact hsplit.2.2 u hu' v hv2

/-- An element of an earlier chunk is `keyLE` every element of the next
chunk, given the input was sorted. -/
theorem chunkBy_cross (r : Post → Post → Bool) (l : List Post)
    (hp : List.Pairwise keyLE l) :
    List.Chain' (fun g h => ∀ u ∈ g, ∀ v ∈ h, keyLE u v) (chunkBy r l) :=
  chunkBy_cross_le r l.length l le_rfl hp

theorem chunkBy_singletons_le (r : Post → Post → Bool) :
    ∀ (n : Nat) (l : List Post), l.length ≤ n →
      List.Chain' (fun a b => r a b = false) l →
      chunkBy r l = l.map fun a => [a] := by
  intro n
  induction n with
  | zero =>
    intro l hl _
    rw [List.eq_nil_of_length_eq_zero (Nat.le_zero.mp hl), chunkBy_nil]
    rfl
  | succ m ih =>
    intro l hl hc
    cases l with
    | nil => rw [chunkBy_nil]; rfl
    | cons a l =>
      cases l with
      | nil => rw [chunkBy_cons]; simp [spanChain, chunkBy_nil]
      | cons b rest =>
        rw [List.chain'_cons] at hc
        have hspan : spanChain r a (b :: rest) = ([], b :: rest) := by
          simp [spanChain, hc.1]
        rw [chunkBy_cons, hspan]
        simp only [List.map_cons]
        rw [ih (b :: rest) (Nat.le_of_succ_le_succ hl) hc.2]
        simp

/-- When no two adjacent elements are chained, every chunk is a
singleton. -/
theorem chunkBy_singletons (r : Post → Post → Bool) (l : List Post)
    (hc : List.Chain' (fun a b => r a b = false) l) :
    chunkBy r l = l.map fun a => [a] :=
  chunkBy_singletons_le r l.length l le_rfl hc

end AIClient

namespace AIClient

/-- The new-thread test of the source loop, evaluated with the previous
post's author and parsed time, is exactly the negation of the
continuation relation `sameThread`. -/
theorem newThread_not_sameThread (thrUs : Nat) (p q : Post) :
    (!((some p.author_username : Option String) == some q.author_username) ||
      (postMicros p.post_time).isNone || (postMicros q.post_time).isNone ||
      gapExceeds thrUs (postMicros p.post_time) (postMicros q.post_time)) =
      !sameThread thrUs p q := by
  unfold sameThread gapExceeds
  cases hp : postMicros p.post_time <;> cases hq : postMicros q.post_time <;>
    cases hab : p.author_username == q.author_username <;>
      simp [hp, hq, hab, ← decide_not, decide_eq_decide, Nat.not_le, Nat.not_lt]

/-- Invariant form of the detection loop: with a non-empty current
thread ending in `p`, the loop emits the pending threads, the current
thread extended by the maximal chained run, and the chunks of the
remainder. -/
theorem detectLoop_go (thrUs : Nat) :
    ∀ (l : List Post) (p : Post) (pre : List Post) (threads : List (List Post)),
      detectLoop thrUs l threads (pre ++ [p]) (some p.author_username)
          (postMicros p.post_time) =
        threads ++ ((pre ++ [p]) ++ (spanChain (sameThread thrUs) p l).1) ::
          chunkBy (sameThread thrUs) (spanChain (sameThread thrUs) p l).2 := by
  intro l
  induction l with
  | nil =>
    intro p pre threads
    simp [detectLoop, spanChain, chunkBy_nil]
  | cons q rest ih =>
    intro p pre threads
    rw [detectLoop]
    simp only [newThread_not_sameThread]
    cases hst : sameThread thrUs p q with
    | false =>
      simp only [Bool.not_false, if_true]
      have hcur : (pre ++ [p]).isEmpty = false := by simp
      rw [hcur]
      simp only [Bool.false_eq_true, if_false]
      have h1 := ih q [] (threads ++ [pre ++ [p]])
      simp only [List.nil_append] at h1
      rw [h1]
      rw [spanChain, hst]
      simp only [Bool.false_eq_true, if_false, List.append_nil]
      rw [chunkBy_cons]
      simp [List.append_assoc]
    | true =>
      simp only [Bool.not_true, Bool.false_eq_true, if_false]
      have h1 := ih q (pre ++ [p]) threads
      rw [h1]
      rw [spanChain, hst]
      simp [List.append_assoc]

/-- The source's accumulator loop computes exactly the chunking of its
input by the `sameThread` relation. -/
theorem detectLoop_eq_chunkBy (thrUs : Nat) (l : List Post) :
    detectLoop thrUs l [] [] none none = chunkBy (sameThread thrUs) l := by
  cases l with
  | nil => simp [detectLoop, chunkBy_nil]
  | cons p rest =>
    have h0 : detectLoop thrUs (p :: rest) [] [] none none =
        detectLoop thrUs rest [] [p] (some p.author_username)
          (postMicros p.post_time) := rfl
    rw [h0]
    have h1 := detectLoop_go thrUs rest p [] []
    simp only [List.nil_append] at h1
    rw [h1, chunkBy_cons]
    rfl

/-- `detect_and_group_threads` (on inputs where Python's sort does not
raise) sorts stably by `(author, parsed time)` and then cuts the list
exactly where the author changes, a time fails to parse, or the gap
exceeds the threshold. -/
theorem detect_eq_chunkBy (posts : List Post) (thr : Nat)
    (hmx : hasMixedPair posts = false) :
    detectAndGroupThreads posts thr =
      .ok (chunkBy (sameThread (thr * 60000000)) (List.insertionSort keyLE posts)) := by
  unfold detectAndGroupThreads
  by_cases he : posts.isEmpty
  · have : posts = [] := List.isEmpty_iff.mp he
    subst this
    simp [chunkBy_nil]
  · have he' : posts.isEmpty = false := by simpa using he
    simp [he', hmx, Bool.false_eq_true, detectLoop_eq_chunkBy]

end AIClient

namespace AIClient

theorem chain'_and {α : Type} {P Q : α → α → Prop} :
    ∀ (l : List α), List.Chain' P l → List.Chain' Q l →
      List.Chain' (fun a b => P a b ∧ Q a b) l := by
  intro l
  induction l with
  | nil => intro _ _; exact List.chain'_nil
  | cons a l ih =>
    intro hP hQ
    cases l with
    | nil => simp
    | cons b l' =>
      rw [List.chain'_cons] at hP hQ ⊢
      exact ⟨⟨hP.1, hQ.1⟩, ih hP.2 hQ.2⟩

theorem chain'_imp_of_mem {α : Type} {S T : α → α → Prop} :
    ∀ (l : List α), (∀ a ∈ l, ∀ b ∈ l, S a b → T a b) → List.Chain' S l →
      List.Chain' T l := by
  intro l
  induction l with
  | nil => intro _ _; exact List.chain'_nil
  | cons a l ih =>
    intro himp hS
    cases l with
    | nil => simp
    | cons b l' =>
      rw [List.chain'_cons] at hS ⊢
      refine ⟨himp a (by simp) b (by simp) hS.1, ?_⟩
      refine ih ?_ hS.2
      intro x hx y hy
      exact himp x (List.mem_cons_of_mem _ hx) y (List.mem_cons_of_mem _ hy)

/-- Along a `sameThread` chain the author never changes. -/
theorem chain_author (thrUs : Nat) :
    ∀ (t : List Post) (a : Post),
      List.Chain (fun x y => sameThread thrUs x y = true) a t →
      ∀ x ∈ a :: t, x.author_username = a.author_username := by
  intro t
  induction t with
  | nil => intro a _ x hx; simp at hx; rw [hx]
  | cons b t ih =>
    intro a hch x hx
    rw [List.chain_cons] at hch
    have hab : b.author_username = a.author_username := by
      have := hch.1
      unfold sameThread at this
      simp only [Bool.and_eq_true, beq_iff_eq] at this
      exact this.1.symm
    rcases List.mem_cons.mp hx with rfl | hx'
    · rfl
    · rw [ih b hch.2 x hx']
      exact hab

/-- `sameThread` requires both parsed times. -/
theorem sameThread_some {thrUs : Nat} {x y : Post}
    (h : sameThread thrUs x y = true) :
    (postMicros x.post_time).isSome ∧ (postMicros y.post_time).isSome := by
  unfold sameThread at h
  cases hx : postMicros x.post_time <;> cases hy : postMicros y.post_time <;>
    rw [hx, hy] at h <;> simp_all

/-- A failed `sameThread` between same-author posts with parsed times is
a gap beyond the threshold. -/
theorem sameThread_gap {thrUs : Nat} {x y : Post} {tx ty : Int}
    (ha : x.author_username = y.author_username)
    (hx : postMicros x.post_time = some tx) (hy : postMicros y.post_time = some ty)
    (h : sameThread thrUs x y = false) : thrUs < (ty - tx).natAbs := by
  unfold sameThread at h
  rw [hx, hy, ha] at h
  simp only [beq_self_eq_true, Bool.true_and, decide_eq_false_iff_not, Nat.not_le] at h
  exact h

/-- `keyLE` between same-author posts with parsed times orders the
times. -/
theorem keyLE_time {x y : Post} {tx ty : Int}
    (ha : x.author_username = y.author_username)
    (hx : postMicros x.post_time = some tx) (hy : postMicros y.post_time = some ty)
    (h : keyLE x y) : tx ≤ ty := by
  unfold keyLE at h
  rw [hx, hy] at h
  rw [Bool.or_eq_true] at h
  rcases h with h | h
  · rw [ha] at h; simp at h
  · rw [Bool.and_eq_true] at h
    simpa [timeKeyLE] using h.2

/-- All-parseable lists have no mixed pair, so the sort cannot raise. -/
theorem hasMixedPair_eq_false (l : List Post)
    (hp : ∀ p ∈ l, (postMicros p.post_time).isSome) :
    hasMixedPair l = false := by
  unfold hasMixedPair
  rw [List.any_eq_false]
  intro p hpmem
  rw [Bool.not_eq_true, List.any_eq_false]
  intro q hqmem
  simp [hp p hpmem, hp q hqmem]

/-- A same-author, all-parseable, `(author, time)`-sorted group is also
sorted under the merge key. -/
theorem pairwise_mergeLE {g : List Post} {a : Post}
    (hauth : ∀ x ∈ g, x.author_username = a.author_username)
    (hp : ∀ x ∈ g, (postMicros x.post_time).isSome)
    (hs : List.Pairwise keyLE g) : List.Pairwise mergeLE g := by
  refine List.Pairwise.imp_of_mem ?_ hs
  intro x y hx hy hxy
  obtain ⟨tx, htx⟩ := Option.isSome_iff_exists.mp (hp x hx)
  obtain ⟨ty, hty⟩ := Option.isSome_iff_exists.mp (hp y hy)
  have ha : x.author_username = y.author_username := by
    rw [hauth x hx, hauth y hy]
  have := keyLE_time ha htx hty hxy
  unfold mergeLE mergeKey
  rw [htx, hty]
  simpa using this

/-- The aggregation of a non-empty merge-sorted group keeps the head's
author and time-string fields. -/
theorem proc_fields {a : Post} {t : List Post}
    (hs : List.Pairwise mergeLE (a :: t)) :
    (processThreadGroup (a :: t)).author_username = a.author_username ∧
    (processThreadGroup (a :: t)).post_time = a.post_time := by
  cases t with
  | nil => simp [processThreadGroup]
  | cons b t =>
    have hsorted : List.insertionSort mergeLE (a :: b :: t) = a :: b :: t :=
      List.Sorted.insertionSort_eq hs
    simp only [processThreadGroup, mergeThreadContent]
    rw [hsorted]
    simp

end AIClient

namespace AIClient

/-- Every chunk of a key-sorted, all-parseable list is nonempty,
author-uniform, all-parseable and key-sorted, and its merged record keeps
the head's author and time-string fields. -/
theorem chunk_props (thrUs : Nat) {sorted g : List Post}
    (hsorted : List.Pairwise keyLE sorted)
    (hparse : ∀ p ∈ sorted, (postMicros p.post_time).isSome)
    (hg : g ∈ chunkBy (sameThread thrUs) sorted) :
    ∃ a t, g = a :: t ∧
      (∀ x ∈ a :: t, x.author_username = a.author_username) ∧
      (∀ x ∈ a :: t, (postMicros x.post_time).isSome) ∧
      List.Pairwise keyLE (a :: t) ∧
      (processThreadGroup (a :: t)).author_username = a.author_username ∧
      (processThreadGroup (a :: t)).post_time = a.post_time := by
  obtain ⟨a, t, rfl, hchain⟩ := chunkBy_shape _ hg
  have hauth := chain_author thrUs t a hchain
  have hpw : List.Pairwise keyLE (a :: t) :=
    hsorted.sublist (chunkBy_sublist _ hg)
  have hpar : ∀ x ∈ a :: t, (postMicros x.post_time).isSome :=
    fun x hx => hparse x (chunkBy_subset _ hg x hx)
  have hf := proc_fields (pairwise_mergeLE hauth hpar hpw)
  exact ⟨a, t, rfl, hauth, hpar, hpw, hf.1, hf.2⟩

/-- The merged records of two adjacent chunks are themselves unrelated by
`sameThread` and ordered by `keyLE`. -/
theorem adjacent_records (thrUs : Nat) {sorted g h : List Post}
    (hsorted : List.Pairwise keyLE sorted)
    (hparse : ∀ p ∈ sorted, (postMicros p.post_time).isSome)
    (hg : g ∈ chunkBy (sameThread thrUs) sorted)
    (hh : h ∈ chunkBy (sameThread thrUs) sorted)
    (hB : ∃ x, g.getLast? = some x ∧ ∃ y, h.head? = some y ∧
      sameThread thrUs x y = false)
    (hK : ∀ u ∈ g, ∀ v ∈ h, keyLE u v) :
    sameThread thrUs (processThreadGroup g) (processThreadGroup h) = false ∧
      keyLE (processThreadGroup g) (processThreadGroup h) := by
  obtain ⟨a, t, rfl, hauthg, hparg, hpwg, hfga, hfgt⟩ :=
    chunk_props thrUs hsorted hparse hg
  obtain ⟨b, s, rfl, hauthh, hparh, hpwh, hfhb, hfht⟩ :=
    chunk_props thrUs hsorted hparse hh
  obtain ⟨x, hx, y, hy, hxy⟩ := hB
  have hyb : b = y := by simpa using hy
  subst hyb
  have hxmem : x ∈ a :: t := List.mem_of_mem_getLast? hx
  refine ⟨?_, ?_⟩
  · rw [sameThread_ext thrUs hfga.symm hfgt.symm hfhb.symm hfht.symm]
    by_cases hab : a.author_username = b.author_username
    · have hax : x.author_username = a.author_username := hauthg x hxmem
      obtain ⟨ta, hta⟩ :=
        Option.isSome_iff_exists.mp (hparg a (List.mem_cons_self a t))
      obtain ⟨tx, htx⟩ := Option.isSome_iff_exists.mp (hparg x hxmem)
      obtain ⟨tb, htb⟩ :=
        Option.isSome_iff_exists.mp (hparh b (List.mem_cons_self b s))
      have hgap : thrUs < (tb - tx).natAbs :=
        sameThread_gap (by rw [hax, hab]) htx htb hxy
      have hKax : keyLE a x := by
        rcases List.mem_cons.mp hxmem with rfl | hx'
        · exact keyLE_refl _
        · exact (List.pairwise_cons.mp hpwg).1 x hx'
      have h2 : ta ≤ tx := keyLE_time hax.symm hta htx hKax
      have h3 : tx ≤ tb :=
        keyLE_time (by rw [hax, hab]) htx htb
          (hK x hxmem b (List.mem_cons_self b s))
      unfold sameThread
      rw [hta, htb]
      have habq : (a.author_username == b.author_username) = true := by
        simpa using hab
      simp only [habq, Bool.true_and, decide_eq_false_iff_not, Nat.not_le]
      omega
    · have habq : (a.author_username == b.author_username) = false := by
        simpa using hab
      unfold sameThread
      rw [habq]
      simp
  · exact keyLE_ext hfga.symm hfgt.symm hfhb.symm hfht.symm
      (hK a (List.mem_cons_self a t) b (List.mem_cons_self b s))

/-- The output of a successful aggregation of an all-parseable input is
all-parseable, adjacent records never share a thread, and the records
are sorted by the grouping key. -/
theorem aggregate_output_props (posts rs : List Post)
    (hparse : ∀ p ∈ posts, (postMicros p.post_time).isSome)
    (h : aggregatePipeline posts = .ok rs) :
    (∀ r ∈ rs, (postMicros r.post_time).isSome) ∧
    List.Chain' (fun u v => sameThread (5 * 60000000) u v = false) rs ∧
    List.Pairwise keyLE rs := by
  have hdet := detect_eq_chunkBy posts 5 (hasMixedPair_eq_false posts hparse)
  unfold aggregatePipeline at h
  rw [hdet] at h
  simp only [Except.map] at h
  have hrs : rs = (chunkBy (sameThread (5 * 60000000))
      (List.insertionSort keyLE posts)).map processThreadGroup := by
    cases h
    rfl
  subst hrs
  have hsorted : List.Pairwise keyLE (List.insertionSort keyLE posts) :=
    List.sorted_insertionSort keyLE posts
  have hparse' : ∀ p ∈ List.insertionSort keyLE posts,
      (postMicros p.post_time).isSome := by
    intro p hp
    exact hparse p ((List.mem_insertionSort keyLE).mp hp)
  have hcomb := chain'_and _
    (chunkBy_boundary (sameThread (5 * 60000000)) (List.insertionSort keyLE posts))
    (chunkBy_cross (sameThread (5 * 60000000)) (List.insertionSort keyLE posts)
      hsorted)
  refine ⟨?_, ?_, ?_⟩
  · intro r hr
    obtain ⟨g, hgmem, rfl⟩ := List.mem_map.mp hr
    obtain ⟨a, t, rfl, _, hpar, _, _, hft⟩ :=
      chunk_props (5 * 60000000) hsorted hparse' hgmem
    rw [hft]
    exact hpar a (List.mem_cons_self a t)
  · rw [List.chain'_map]
    refine chain'_imp_of_mem _ ?_ hcomb
    intro g hgmem g' hg'mem hBK
    exact (adjacent_records (5 * 60000000) hsorted hparse' hgmem hg'mem
      hBK.1 hBK.2).1
  · rw [← List.chain'_iff_pairwise, List.chain'_map]
    refine chain'_imp_of_mem _ ?_ hcomb
    intro g hgmem g' hg'mem hBK
    exact (adjacent_records (5 * 60000000) hsorted hparse' hgmem hg'mem
      hBK.1 hBK.2).2

end AIClient

set_option maxRecDepth 100000 in
/-- C7: counterexample to idempotence of the aggregation pipeline.  On two
same-author posts 3 minutes apart, the second aggregation round keeps the
merged content and member count of the first round's single record, but
replaces its thread id: the id is regenerated from the re-grouped singleton
(member count 1), and md5 of the count-1 string differs from md5 of the
count-2 string. -/
theorem claim7_counterexample :
    AIClient.threadIdsOf (AIClient.pipelineTwice [AIClient.scenA1, AIClient.scenA2]) ≠
        AIClient.threadIdsOf (AIClient.aggregatePipeline [AIClient.scenA1, AIClient.scenA2]) ∧
      AIClient.contentsOf (AIClient.pipelineTwice [AIClient.scenA1, AIClient.scenA2]) =
        AIClient.contentsOf (AIClient.aggregatePipeline [AIClient.scenA1, AIClient.scenA2]) ∧
      AIClient.threadCountsOf (AIClient.pipelineTwice [AIClient.scenA1, AIClient.scenA2]) =
        AIClient.threadCountsOf (AIClient.aggregatePipeline [AIClient.scenA1, AIClient.scenA2]) :=
  ⟨by decide, by decide, by decide⟩

/-- C7 (amended): re-aggregation of an aggregation's output (for inputs
whose time strings all parse) is NOT the identity: it succeeds and
preserves every field of every record — each record is re-grouped as a
singleton — except the thread id, which is regenerated from the singleton
group, i.e. from member count 1 instead of the original member count. -/
theorem claim7_reaggregation_changes_only_thread_id
    (posts rs : List Post)
    (hparse : ∀ p ∈ posts, (AIClient.postMicros p.post_time).isSome)
    (h : AIClient.aggregatePipeline posts = .ok rs) :
    AIClient.aggregatePipeline rs =
      .ok (rs.map fun r =>
        { r with thread_id := some (AIClient.generateThreadId [r]) }) := by
  obtain ⟨hp, hchain, hpw⟩ := AIClient.aggregate_output_props posts rs hparse h
  have hdet := AIClient.detect_eq_chunkBy rs 5
    (AIClient.hasMixedPair_eq_false rs hp)
  rw [List.Sorted.insertionSort_eq hpw] at hdet
  rw [AIClient.chunkBy_singletons _ rs hchain] at hdet
  unfold AIClient.aggregatePipeline
  rw [hdet]
  simp only [Except.map, List.map_map]
  rfl

set_option maxRecDepth 100000 in
/-- C7 witness: the amended theorem applied to the concrete 3-minutes-apart
scenario, whose first aggregation is one merged record. -/
theorem claim7_witness :
    AIClient.aggregatePipeline AIClient.firstAggregation =
      .ok (AIClient.firstAggregation.map fun r =>
        { r with thread_id := some (AIClient.generateThreadId [r]) }) :=
  claim7_reaggregation_changes_only_thread_id [AIClient.scenA1, AIClient.scenA2]
    AIClient.firstAggregation (by decide) (by rfl)

set_option maxRecDepth 100000 in
/-- C9: thread grouping opens a new thread exactly at an author change or a
gap beyond the threshold — for all-parseable inputs the grouping equals
chunking the `(author, time)`-sorted list at every adjacent pair that fails
the same-author-within-threshold test — and concretely: two same-author
posts 3 minutes apart merge into one record with member count 2 and content
`1/2: hello\n2/2: world`, while the same posts 40 minutes apart stay two
separate unmerged records with distinct thread ids. -/
theorem claim9_thread_grouping_boundary_and_merge :
    (∀ (posts : List Post) (thr : Nat),
      (∀ p ∈ posts, (AIClient.postMicros p.post_time).isSome) →
      AIClient.detectAndGroupThreads posts thr =
        .ok (AIClient.chunkBy (AIClient.sameThread (thr * 60000000))
          (List.insertionSort AIClient.keyLE posts))) ∧
    AIClient.contentsOf (AIClient.aggregatePipeline [AIClient.scenA1, AIClient.scenA2]) =
      some ["1/2: hello\n2/2: world"] ∧
    AIClient.threadCountsOf (AIClient.aggregatePipeline [AIClient.scenA1, AIClient.scenA2]) =
      some [some 2] ∧
    AIClient.contentsOf (AIClient.aggregatePipeline [AIClient.scenA1, AIClient.scenA40]) =
      some ["hello", "later"] ∧
    AIClient.threadCountsOf (AIClient.aggregatePipeline [AIClient.scenA1, AIClient.scenA40]) =
      some [none, none] ∧
    AIClient.firstTwoIdsDiffer (AIClient.aggregatePipeline [AIClient.scenA1, AIClient.scenA40]) =
      true := by
  refine ⟨?_, by decide, by decide, by decide, by decide, by decide⟩
  intro posts thr hp
  exact AIClient.detect_eq_chunkBy posts thr (AIClient.hasMixedPair_eq_false posts hp)

/-- C9 witness: the boundary characterisation applied to the concrete
40-minutes-apart scenario input. -/
theorem claim9_witness :
    AIClient.detectAndGroupThreads [AIClient.scenA1, AIClient.scenA40] 5 =
      .ok (AIClient.chunkBy (AIClient.sameThread (5 * 60000000))
        (List.insertionSort AIClient.keyLE [AIClient.scenA1, AIClient.scenA40])) :=
  claim9_thread_grouping_boundary_and_merge.1 [AIClient.scenA1, AIClient.scenA40] 5
    (by decide)

